import Mathlib

/-!
# Schema synthesis of `pkg/modules/generator.go`

A shallow embedding of the builders of `generator.go` (package `modules`) that turn a
protobuf descriptor model into JSON Schema fragments, followed by theorems about them.

Conventions of the embedding

* A Go pointer that may be nil is an `Option`; a builder that dereferences a nil pointer or
  calls a method on a nil interface panics, which is the result `none`.
* `*jsonschema.Schema` is the inductive type `Schema`; every builder of the source returns a
  freshly allocated schema, so pointer identity plays no role and schemas are values.
* Functions of other packages that `generator.go` calls are either embedded from the
  behaviour of the library they belong to (`orderedmap`, `jsonschema.ID`, `pgs.ProtoType`),
  or collected in the record `Deps`, over which all theorems quantify.
-/

namespace Modules

/-! ## Descriptor model (`pgs`) -/

/-- The scalar kinds of `pgs.ProtoType` (the values of `FieldDescriptorProto_Type`). -/
inductive ProtoType where
  | DoubleT | FloatT | Int64T | UInt64T | Int32T | Fixed64T | Fixed32T | BoolT | StringT
  | GroupT | MessageT | BytesT | UInt32T | EnumT | SFixed32 | SFixed64 | SInt32 | SInt64
  deriving DecidableEq, Repr

/-- The method `pgs.ProtoType.IsNumeric`: true for every integer and floating point kind. -/
def ProtoType.IsNumeric : ProtoType → Bool
  | .DoubleT | .FloatT | .Int64T | .UInt64T | .Int32T | .Fixed64T | .Fixed32T
  | .UInt32T | .SFixed32 | .SFixed64 | .SInt32 | .SInt64 => true
  | _ => false

/-- The interface `FqdnResolver` of the source: anything that reports a fully-qualified
name. -/
class FqdnResolver (α : Type) where
  FullyQualifiedName : α → String

/-- A value of Go's `any` as it occurs in `Schema.Enum`: the nil interface, the values
`json.Unmarshal` stores into an `any`, and an `int32` (an enum ordinal). A `float64` is kept
as its bit pattern. -/
inductive GoAny where
  | nil
  | bool (b : Bool)
  | float64 (bits : Nat)
  | string (s : String)
  | int32 (n : Int)
  | slice (xs : List GoAny)
  | map (kvs : List (String × GoAny))

/-- A Go `error` value. -/
structure GoError where
  msg : String
  deriving DecidableEq, Repr

/-- The message `anypb.Any`: `value` is the byte slice `Value`, which may be nil. -/
structure AnyPb where
  typeUrl : String
  value : Option (List Nat)
  deriving DecidableEq, Repr

/-- The constants of `proto.EnumOptions_MappingType` that the source names; `other` is any
further `int32` value, for which the switches of `buildFromEnum` have no case. -/
inductive MappingType where
  | MapToString
  | MapToNumber
  | MapToCustom
  | other (code : Int)
  deriving DecidableEq, Repr

/-- Modelled from the spec: the resolved enum options `proto.EnumOptions` (`title`,
`description`, `EnumMapping` mode); the type is declared outside `generator.go`. -/
structure EnumOptions where
  title : String
  description : String
  mappingType : MappingType
  deriving DecidableEq, Repr

/-- Modelled from the spec: the resolved options of one enum value,
`proto.EnumValueOptions`, whose `CustomValue` is an encoded JSON payload or absent (a nil
pointer); the type is declared outside `generator.go`. -/
structure EnumValueOptions where
  customValue : Option AnyPb
  deriving DecidableEq, Repr

/-- The part of `pgs.EnumValue` the builders read, with its resolved options attached. -/
structure EnumValue where
  name : String
  value : Int
  fullyQualifiedName : String
  options : EnumValueOptions
  deriving DecidableEq, Repr

/-- The part of `pgs.Enum` the builders read, with its resolved options attached. -/
structure Enum where
  name : String
  fullyQualifiedName : String
  leadingComments : String
  values : List EnumValue
  options : EnumOptions
  deriving DecidableEq, Repr

/-- A message as it is reached through a field type (`Embed()`). Message graphs may be
cyclic, and the builders read nothing but the fully-qualified name of such a message. -/
structure EmbedMessage where
  fullyQualifiedName : String
  deriving DecidableEq, Repr

/-- The interface `pgs.FieldTypeElem` as the record of its method results; `enum` and `embed`
are nil (`none`) unless the element is an enum, respectively a message. -/
structure FieldTypeElem where
  protoType : ProtoType
  enum : Option Enum
  embed : Option EmbedMessage
  deriving DecidableEq, Repr

/-- The interface `pgs.FieldType` as the record of its method results. For a repeated type
`Enum()` and `Embed()` are nil and the element carries them; `Element()` is nil for a type
that is neither repeated nor a map. -/
structure FieldType where
  protoType : ProtoType
  isRepeated : Bool
  isMap : Bool
  enum : Option Enum
  embed : Option EmbedMessage
  element : Option FieldTypeElem
  deriving DecidableEq, Repr

/-- The part of `pgs.Field` the builders read. `name` is the `pgs.Name` of the field, a
string type. -/
structure Field where
  name : String
  fullyQualifiedName : String
  leadingComments : String
  inRealOneOf : Bool
  hasOptionalKeyword : Bool
  type : FieldType
  deriving DecidableEq, Repr

/-- The part of `pgs.OneOf` the builders read. -/
structure OneOf where
  name : String
  fields : List Field
  deriving DecidableEq, Repr

/-- The part of `pgs.Message` the builders read. -/
structure Message where
  name : String
  fullyQualifiedName : String
  leadingComments : String
  fields : List Field
  oneOfs : List OneOf
  deriving DecidableEq, Repr

instance : FqdnResolver Field := ⟨Field.fullyQualifiedName⟩
instance : FqdnResolver Enum := ⟨Enum.fullyQualifiedName⟩
instance : FqdnResolver EnumValue := ⟨EnumValue.fullyQualifiedName⟩
instance : FqdnResolver EmbedMessage := ⟨EmbedMessage.fullyQualifiedName⟩
instance : FqdnResolver Message := ⟨Message.fullyQualifiedName⟩

/-! ## Options records (`pkg/proto`) -/

/-- Modelled from the spec: the constraint bundle `Numeric` with `min`, `max` and
`multipleOf`, each a decimal literal that is empty when unset; the type is declared outside
`generator.go`. -/
structure NumericKeywords where
  minimum : String
  maximum : String
  multipleOf : String
  deriving DecidableEq, Repr

/-- Modelled from the spec: the constraint bundle `StringC` with `pattern`, `minLength` and
`maxLength`; the type is declared outside `generator.go`. -/
structure StringKeywords where
  pattern : String
  minLength : Option Nat
  maxLength : Option Nat
  deriving DecidableEq, Repr

/-- Modelled from the spec: the constraint bundle `ArrayC` with `minItems`, `maxItems` and
`uniqueItems`; the type is declared outside `generator.go`. -/
structure ArrayKeywords where
  minItems : Option Nat
  maxItems : Option Nat
  uniqueItems : Bool
  deriving DecidableEq, Repr

/-- Modelled from the spec: the constraint bundle `ObjectC` with its
`additionalPropertiesPolicy`, kept as the ordinal of the policy; the type is declared outside
`generator.go`. -/
structure ObjectKeywords where
  additionalPropertiesPolicy : Nat
  deriving DecidableEq, Repr

/-- Modelled from the spec: the resolved field options `proto.FieldOptions`; the type is
declared outside `generator.go`. -/
structure FieldOptions where
  title : String
  description : String
  numeric : Option NumericKeywords
  string : Option StringKeywords
  array : Option ArrayKeywords
  deriving DecidableEq, Repr

/-- Modelled from the spec: the resolved message options `proto.MessageOptions`; the type is
declared outside `generator.go`. -/
structure MessageOptions where
  object : Option ObjectKeywords
  deriving DecidableEq, Repr

/-- The nil-safe getter `(*FieldOptions).GetNumeric`. -/
def FieldOptions.GetNumeric (fo : Option FieldOptions) : Option NumericKeywords :=
  fo.bind FieldOptions.numeric

/-- The nil-safe getter `(*FieldOptions).GetString_`. -/
def FieldOptions.GetString_ (fo : Option FieldOptions) : Option StringKeywords :=
  fo.bind FieldOptions.string

/-- The nil-safe getter `(*FieldOptions).GetArray`. -/
def FieldOptions.GetArray (fo : Option FieldOptions) : Option ArrayKeywords :=
  fo.bind FieldOptions.array

/-- The nil-safe getter `(*MessageOptions).GetObject`. -/
def MessageOptions.GetObject (mo : Option MessageOptions) : Option ObjectKeywords :=
  mo.bind MessageOptions.object

/-! ## Schema fragments (`jsonschema.Schema`) -/

/-- The keywords of `jsonschema.Schema` that hold no nested schema. A string keyword is unset
when empty, a list keyword when empty, a pointer keyword when `none`. -/
structure Keywords where
  type : String := ""
  title : String := ""
  description : String := ""
  ref : String := ""
  required : List String := []
  enum : List GoAny := []
  minimum : String := ""
  maximum : String := ""
  multipleOf : String := ""
  pattern : String := ""
  minLength : Option Nat := none
  maxLength : Option Nat := none
  minItems : Option Nat := none
  maxItems : Option Nat := none
  uniqueItems : Bool := false

/-- The struct `jsonschema.Schema`, restricted to the keywords the builders and the keyword
fillers write: the flat keywords and the keywords that hold nested schemas. `properties` is
the ordered map in insertion order. A slice is a list, the nil slice being the empty list;
only for `anyOf`, which the source allocates with `make` and so sets to a non-nil slice even
when it has no entry, the nil slice (`none`) is kept apart from a slice that is set. -/
inductive Schema where
  | mk (kw : Keywords) (properties : List (String × Schema)) (items : Option Schema)
      (additionalProperties : Option Schema) (allOf : List Schema)
      (anyOf : Option (List Schema)) (oneOf : List Schema) (not : Option Schema)

namespace Schema

/-- The zero value `&jsonschema.Schema{}`. -/
def empty : Schema := .mk {} [] none none [] none [] none

def kw : Schema → Keywords
  | .mk k _ _ _ _ _ _ _ => k
def properties : Schema → List (String × Schema)
  | .mk _ p _ _ _ _ _ _ => p
def items : Schema → Option Schema
  | .mk _ _ i _ _ _ _ _ => i
def additionalProperties : Schema → Option Schema
  | .mk _ _ _ a _ _ _ _ => a
def allOf : Schema → List Schema
  | .mk _ _ _ _ a _ _ _ => a
def anyOf : Schema → Option (List Schema)
  | .mk _ _ _ _ _ a _ _ => a
def oneOf : Schema → List Schema
  | .mk _ _ _ _ _ _ o _ => o
def not : Schema → Option Schema
  | .mk _ _ _ _ _ _ _ n => n

def type (s : Schema) : String := s.kw.type
def title (s : Schema) : String := s.kw.title
def description (s : Schema) : String := s.kw.description
def ref (s : Schema) : String := s.kw.ref
def required (s : Schema) : List String := s.kw.required
def enum (s : Schema) : List GoAny := s.kw.enum

/-- Assignments to the flat keywords: `f` rewrites the keyword record. -/
def withKw (f : Keywords → Keywords) : Schema → Schema
  | .mk k p i a al an o n => .mk (f k) p i a al an o n

def setType (s : Schema) (v : String) : Schema := s.withKw fun k => { k with type := v }
def setTitle (s : Schema) (v : String) : Schema := s.withKw fun k => { k with title := v }
def setDescription (s : Schema) (v : String) : Schema :=
  s.withKw fun k => { k with description := v }
def setRef (s : Schema) (v : String) : Schema := s.withKw fun k => { k with ref := v }
def setRequired (s : Schema) (v : List String) : Schema :=
  s.withKw fun k => { k with required := v }
def setEnum (s : Schema) (v : List GoAny) : Schema := s.withKw fun k => { k with enum := v }

def setProperties : Schema → List (String × Schema) → Schema
  | .mk k _ i a al an o n, p => .mk k p i a al an o n
def setItems : Schema → Option Schema → Schema
  | .mk k p _ a al an o n, i => .mk k p i a al an o n
def setAdditionalProperties : Schema → Option Schema → Schema
  | .mk k p i _ al an o n, a => .mk k p i a al an o n
def setAllOf : Schema → List Schema → Schema
  | .mk k p i a _ an o n, al => .mk k p i a al an o n
def setAnyOf : Schema → Option (List Schema) → Schema
  | .mk k p i a al _ o n, an => .mk k p i a al an o n
def setOneOf : Schema → List Schema → Schema
  | .mk k p i a al an _ n, o => .mk k p i a al an o n
def setNot : Schema → Option Schema → Schema
  | .mk k p i a al an o _, n => .mk k p i a al an o n

end Schema

/-- The method `Set` of `orderedmap.OrderedMap`: a key that is already present keeps its
position and gets the new value, a new key is appended after the existing ones. -/
def OrderedMap.Set : List (String × Schema) → String → Schema → List (String × Schema)
  | [], key, value => [(key, value)]
  | (k, v) :: rest, key, value =>
    if k = key then (k, value) :: rest else (k, v) :: OrderedMap.Set rest key value

/-- The keys of an ordered map, in insertion order (`OrderedMap.Keys`). -/
def OrderedMap.Keys (m : List (String × Schema)) : List String := m.map Prod.fst

/-- The method `Get` of `orderedmap.OrderedMap`: the value stored under a key, if any. -/
def OrderedMap.Get : List (String × Schema) → String → Option Schema
  | [], _ => none
  | (k, v) :: rest, key => if k = key then some v else OrderedMap.Get rest key

/-! ## Functions of other packages -/

/-- The functions that `generator.go` calls and that live outside it, with unknown bodies:
`pgs.Name.UpperCamelCase`, `proto.GetDescription` (on a field and on an enum),
`fillSchemaByObjectKeywords` and `json.Unmarshal` into an `any`. -/
structure Deps where
  UpperCamelCase : String → String
  GetDescription : Field → Option FieldOptions → String
  GetDescriptionOfEnum : Enum → EnumOptions → String
  fillSchemaByObjectKeywords : Schema → Option ObjectKeywords → Schema
  Unmarshal : List Nat → Except GoError GoAny

/-- Modelled from the spec: `proto.GetTitleOrEmpty` on field options, the `title` of the
options record, empty when there are no options; the function is declared outside
`generator.go`. -/
def GetTitleOrEmpty (fo : Option FieldOptions) : String :=
  match fo with
  | none => ""
  | some o => o.title

/-- Modelled from the spec: `proto.GetTitleOrEmpty` on enum options, the `title` of the
resolved options record; the function is declared outside `generator.go`. -/
def GetTitleOrEmptyOfEnum (eo : EnumOptions) : String := eo.title

/-- Modelled from the spec: `proto.GetEnumOptions`, the resolved options attached to the
enum; the function is declared outside `generator.go`. -/
def GetEnumOptions (enum : Enum) : EnumOptions := enum.options

/-- Modelled from the spec: `proto.GetEnumValueOptions`, the resolved options attached to the
enum value; the function is declared outside `generator.go`. -/
def GetEnumValueOptions (enumValue : EnumValue) : EnumValueOptions := enumValue.options

/-- Modelled from the spec: `fillSchemaByNumericKeywords`, which applies the numeric
constraints (min/max/multipleOf) of the options to the schema and leaves it alone when
there are none; the function is declared outside `generator.go`. -/
def fillSchemaByNumericKeywords (schema : Schema) : Option NumericKeywords → Schema
  | none => schema
  | some n => schema.withKw fun k =>
      { k with minimum := n.minimum, maximum := n.maximum, multipleOf := n.multipleOf }

/-- Modelled from the spec: `fillSchemaByStringKeywords`, which applies the string
constraints (pattern/length) of the options to the schema and leaves it alone when there are
none; the function is declared outside `generator.go`. -/
def fillSchemaByStringKeywords (schema : Schema) : Option StringKeywords → Schema
  | none => schema
  | some c => schema.withKw fun k =>
      { k with pattern := c.pattern, minLength := c.minLength, maxLength := c.maxLength }

/-- Modelled from the spec: `fillSchemaByArrayKeywords`, which applies the array constraints
(`minItems`/`maxItems`/`uniqueItems`) of the options to the schema and leaves it alone when
there are none; the function is declared outside `generator.go`. -/
def fillSchemaByArrayKeywords (schema : Schema) : Option ArrayKeywords → Schema
  | none => schema
  | some c => schema.withKw fun k =>
      { k with minItems := c.minItems, maxItems := c.maxItems, uniqueItems := c.uniqueItems }

/-! ## The builders of `generator.go` -/

/-- The function `toPropertyName`: `name.String()`, the field name unchanged. -/
def toPropertyName (name : String) : String := name

/-- The function `toDef`: `jsonschema.EmptyID.Def(name).String()`, which for the empty base
ID is the name after `#/$defs/`. -/
def toDef {α : Type} [FqdnResolver α] (resolver : α) : String :=
  "#/$defs/" ++ FqdnResolver.FullyQualifiedName resolver

/-- One iteration of the loop over `message.Fields()` in `buildFromMessage`. -/
def buildFromMessage.fieldStep (schema : Schema) (field : Field) : Schema :=
  let propName := toPropertyName field.name
  let schema := schema.setProperties
    (OrderedMap.Set schema.properties propName (Schema.empty.setRef (toDef field)))
  if !field.inRealOneOf && !field.hasOptionalKeyword then
    schema.setRequired (schema.required ++ [propName])
  else
    schema

/-- The schema that one iteration of the loop over `message.OneOfs()` appends to `allOf`. -/
def buildFromMessage.oneOfSchema (oneOf : OneOf) : Schema :=
  let propertyNames := oneOf.fields.map fun item => toPropertyName item.name
  let oneOfSchemas := propertyNames.map fun item => Schema.empty.setRequired [item]
  let negativeSchema := Schema.empty.setNot (some (Schema.empty.setAnyOf (some oneOfSchemas)))
  let combinedSchemas := oneOfSchemas ++ [negativeSchema]
  Schema.empty.setOneOf combinedSchemas

/-- One iteration of the loop over `message.OneOfs()` in `buildFromMessage`. -/
def buildFromMessage.oneOfStep (schema : Schema) (oneOf : OneOf) : Schema :=
  schema.setAllOf (schema.allOf ++ [buildFromMessage.oneOfSchema oneOf])

/-- The schema of `buildFromMessage` before the object keywords are filled in: the
assignments of `Type`, `Title`, `Description` and of the new, empty `Properties` map. -/
def buildFromMessage.header (deps : Deps) (message : Message) : Schema :=
  let schema := Schema.empty
  let schema := schema.setType "object"
  let schema := schema.setTitle (deps.UpperCamelCase message.name)
  let schema := schema.setDescription message.leadingComments
  let schema := schema.setProperties []
  schema

/-- The function `buildFromMessage`. -/
def buildFromMessage (deps : Deps) (message : Message) (mo : Option MessageOptions) : Schema :=
  let schema := buildFromMessage.header deps message
  let schema := deps.fillSchemaByObjectKeywords schema (MessageOptions.GetObject mo)
  let schema := message.fields.foldl buildFromMessage.fieldStep schema
  let schema := message.oneOfs.foldl buildFromMessage.oneOfStep schema
  schema

/-- The function `wrapSchemaInArray`. -/
def wrapSchemaInArray (schema : Schema) (_field : Field) (fo : Option FieldOptions) : Schema :=
  let repeatedSchema := Schema.empty
  let repeatedSchema := repeatedSchema.setTitle schema.title
  let repeatedSchema := repeatedSchema.setDescription schema.description
  let repeatedSchema := repeatedSchema.setType "array"
  let repeatedSchema := repeatedSchema.setItems (some schema)
  fillSchemaByArrayKeywords repeatedSchema (FieldOptions.GetArray fo)

/-- The first part of `buildFromMessageField`, up to the test that wraps the schema: title,
description and `Ref`; `none` when `Embed()` or `Element()` is nil where the source
dereferences it. -/
def buildFromMessageField.element (deps : Deps) (field : Field) (fo : Option FieldOptions) :
    Option Schema := do
  let schema := Schema.empty
  let schema := schema.setTitle (GetTitleOrEmpty fo)
  let schema := schema.setDescription (deps.GetDescription field fo)
  if field.type.isRepeated then do
    let element ← field.type.element
    let message ← element.embed
    pure (schema.setRef (toDef message))
  else do
    let message ← field.type.embed
    pure (schema.setRef (toDef message))

/-- The function `buildFromMessageField`; `none` when its first part panics. -/
def buildFromMessageField (deps : Deps) (field : Field) (fo : Option FieldOptions) :
    Option Schema := do
  let schema ← buildFromMessageField.element deps field fo
  if field.type.isRepeated then
    pure (wrapSchemaInArray schema field fo)
  else
    pure schema

/-- The function `buildFromMapField`; `none` when `Element()`, `Embed()` or `Enum()` is nil
where the source dereferences it. -/
def buildFromMapField (deps : Deps) (field : Field) (fo : Option FieldOptions) :
    Option Schema := do
  let schema := Schema.empty
  let schema := schema.setTitle (GetTitleOrEmpty fo)
  let schema := schema.setDescription (deps.GetDescription field fo)
  let schema := schema.setType "object"
  let valueSchema := Schema.empty
  let value ← field.type.element
  let protoType := value.protoType
  let valueSchema ←
    if protoType = ProtoType.MessageT then do
      let message ← value.embed
      pure (valueSchema.setRef (toDef message))
    else if protoType.IsNumeric then
      pure (valueSchema.setType "number")
    else if protoType = ProtoType.BoolT then
      pure (valueSchema.setType "boolean")
    else if protoType = ProtoType.EnumT then do
      let enum ← value.enum
      pure (valueSchema.setRef (toDef enum))
    else if protoType = ProtoType.StringT ∨ protoType = ProtoType.BytesT then
      pure (valueSchema.setType "string")
    else
      pure valueSchema
  pure (schema.setAdditionalProperties (some valueSchema))

/-- The first part of `buildFromScalaField`, up to the test that wraps the schema: title,
description and the dispatch on the scalar kind; `none` when `Element()` or `Enum()` is nil
where the source dereferences it. -/
def buildFromScalaField.element (deps : Deps) (field : Field) (fo : Option FieldOptions) :
    Option Schema := do
  let schema := Schema.empty
  let schema := schema.setTitle (GetTitleOrEmpty fo)
  let schema := schema.setDescription (deps.GetDescription field fo)
  let protoType := field.type.protoType
  if protoType.IsNumeric then
    pure (fillSchemaByNumericKeywords (schema.setType "number") (FieldOptions.GetNumeric fo))
  else if protoType = ProtoType.BoolT then
    pure (schema.setType "boolean")
  else if protoType = ProtoType.EnumT then
    if field.type.isRepeated then do
      let element ← field.type.element
      let enum ← element.enum
      pure (schema.setRef (toDef enum))
    else do
      let enum ← field.type.enum
      pure (schema.setRef (toDef enum))
  else if protoType = ProtoType.StringT ∨ protoType = ProtoType.BytesT then
    pure (fillSchemaByStringKeywords (schema.setType "string") (FieldOptions.GetString_ fo))
  else
    pure schema

/-- The function `buildFromScalaField`; `none` when its first part panics. -/
def buildFromScalaField (deps : Deps) (field : Field) (fo : Option FieldOptions) :
    Option Schema := do
  let schema ← buildFromScalaField.element deps field fo
  if field.type.isRepeated then
    pure (wrapSchemaInArray schema field fo)
  else
    pure schema

/-- The function `parseScalaValueFromAny`: the decoded value and the error, of which at most
one is set; `none` when `anyValue` is a nil pointer, which `anyValue.Value` dereferences. -/
def parseScalaValueFromAny (deps : Deps) (anyValue : Option AnyPb) :
    Option (GoAny × Option GoError) :=
  match anyValue with
  | none => none
  | some a =>
    match a.value with
    | none => some (GoAny.nil, none)
    | some bytes =>
      match deps.Unmarshal bytes with
      | .error err => some (GoAny.nil, some err)
      | .ok value => some (value, none)

/-- Whether a Go `any` is the nil interface (`customValue == nil`). -/
def GoAny.isNil : GoAny → Bool
  | .nil => true
  | _ => false

/-- The loop over `enum.Values()` in `buildFromEnum`, started on the values still to visit:
the returned pair is `(schema, err)` of the source, a nil schema being `none`. The whole
result is `none` when the loop panics. -/
def buildFromEnum.loop (deps : Deps) (mappingType : MappingType) :
    List EnumValue → Schema → Option (Option Schema × Option GoError)
  | [], schema => some (some schema, none)
  | enumValue :: rest, schema =>
    match mappingType with
    | .MapToString =>
      buildFromEnum.loop deps mappingType rest
        (schema.setEnum (schema.enum ++ [GoAny.string enumValue.name]))
    | .MapToNumber =>
      buildFromEnum.loop deps mappingType rest
        (schema.setEnum (schema.enum ++ [GoAny.int32 enumValue.value]))
    | .MapToCustom =>
      let evo := GetEnumValueOptions enumValue
      match parseScalaValueFromAny deps evo.customValue with
      | none => none
      | some (_, some err) => some (none, some err)
      | some (customValue, none) =>
        if customValue.isNil then
          buildFromEnum.loop deps mappingType rest
            (schema.setEnum (schema.enum ++ [GoAny.string enumValue.name]))
        else
          buildFromEnum.loop deps mappingType rest
            (schema.setEnum (schema.enum ++ [customValue]))
    | .other _ => buildFromEnum.loop deps mappingType rest schema

/-- The function `buildFromEnum`: the pair `(schema, err)`, or `none` on a panic. -/
def buildFromEnum (deps : Deps) (enum : Enum) : Option (Option Schema × Option GoError) :=
  let eo := GetEnumOptions enum
  let schema := Schema.empty
  let schema :=
    match eo.mappingType with
    | .MapToString => schema.setType "string"
    | .MapToNumber => schema.setType "number"
    | .MapToCustom => schema.setType "string"
    | .other _ => schema
  let schema := schema.setTitle (GetTitleOrEmptyOfEnum eo)
  let schema := schema.setDescription (deps.GetDescriptionOfEnum enum eo)
  buildFromEnum.loop deps eo.mappingType enum.values schema

/-- The function `isScalarType`. -/
def isScalarType (field : Field) : Bool :=
  let protoType := field.type.protoType
  if protoType.IsNumeric then true
  else if protoType = ProtoType.BoolT then true
  else if protoType = ProtoType.EnumT then true
  else if protoType = ProtoType.StringT ∨ protoType = ProtoType.BytesT then true
  else false

/-! ## What a field refers to -/

/-- The message that is the element type of a field type: the message of the element for a
repeated type, the message of the type itself otherwise. -/
def FieldType.elementMessage (t : FieldType) : Option EmbedMessage :=
  if t.isRepeated then t.element.bind FieldTypeElem.embed else t.embed

/-- The reference string a field fragment emits: the `ref` of its `items` when it is an array
wrapping an inner fragment, its own `ref` otherwise. -/
def Schema.emittedRef (s : Schema) : String :=
  match s.items with
  | some inner => inner.ref
  | none => s.ref

/-! ## The meaning of the presence keywords -/

mutual

/-- Whether an object whose present property names are those satisfying `present` is
accepted by the keywords `required`, `allOf`, `anyOf`, `oneOf` and `not` of a schema, in
their standard JSON Schema meaning: every name of `required` is present, every schema of
`allOf` accepts, at least one schema of `anyOf` accepts, exactly one schema of `oneOf`
accepts, and the schema of `not` does not accept. A keyword that is not set accepts, and so
does a keyword whose list is empty: JSON Schema gives an empty `anyOf` no meaning, and the
library writes an empty list as an absent keyword (`omitempty`). The other keywords
constrain no presence and are not read. -/
def Schema.accepts (present : String → Bool) : Schema → Bool
  | .mk kw _ _ _ allOf anyOf oneOf nt =>
    kw.required.all present
      && Schema.acceptsAll present allOf
      && Schema.acceptsAnyOf present anyOf
      && (oneOf.isEmpty || Schema.countAccepting present oneOf == 1)
      && Schema.acceptsNot present nt

/-- Every schema of the list accepts. -/
def Schema.acceptsAll (present : String → Bool) : List Schema → Bool
  | [] => true
  | s :: rest => Schema.accepts present s && Schema.acceptsAll present rest

/-- At least one schema of the list accepts. -/
def Schema.acceptsAny (present : String → Bool) : List Schema → Bool
  | [] => false
  | s :: rest => Schema.accepts present s || Schema.acceptsAny present rest

/-- The keyword `anyOf`: unset, or set to the empty list, which is written as absent, it
accepts; set to a list with entries it asks for a schema of the list to accept. -/
def Schema.acceptsAnyOf (present : String → Bool) : Option (List Schema) → Bool
  | none => true
  | some l => l.isEmpty || Schema.acceptsAny present l

/-- The number of schemas of the list that accept. -/
def Schema.countAccepting (present : String → Bool) : List Schema → Nat
  | [] => 0
  | s :: rest =>
    (if Schema.accepts present s then 1 else 0) + Schema.countAccepting present rest

/-- The keyword `not`: unset it accepts, set it asks for its schema not to accept. -/
def Schema.acceptsNot (present : String → Bool) : Option Schema → Bool
  | none => true
  | some s => !Schema.accepts present s

end

/-! ## Custom enum values -/

/-- The custom payload of an enum value is present and decodes: a custom value is attached,
its bytes are not nil, and `json.Unmarshal` accepts them as the value `decoded`. -/
def EnumValue.DecodesTo (deps : Deps) (v : EnumValue) (decoded : GoAny) : Prop :=
  ∃ a bytes, v.options.customValue = some a ∧ a.value = some bytes
    ∧ deps.Unmarshal bytes = .ok decoded

/-- The custom payload of an enum value is present and is not valid JSON: a custom value is
attached, its bytes are not nil, and `json.Unmarshal` rejects them with the error `err`. -/
def EnumValue.FailsWith (deps : Deps) (v : EnumValue) (err : GoError) : Prop :=
  ∃ a bytes, v.options.customValue = some a ∧ a.value = some bytes
    ∧ deps.Unmarshal bytes = .error err

/-- A custom value is attached to the enum value, and its payload is either absent (nil bytes)
or valid JSON. -/
def EnumValue.CustomValueOk (deps : Deps) (v : EnumValue) : Prop :=
  ∃ a, v.options.customValue = some a
    ∧ ∀ bytes, a.value = some bytes → ∃ decoded, deps.Unmarshal bytes = .ok decoded

/-- The literal of an enum value in the mode `MapToCustom`, in words: the value decoded from
the payload when the payload is present and decodes to a value other than JSON null, and the
declared name otherwise. -/
def customLiteral (deps : Deps) (v : EnumValue) : GoAny :=
  match v.options.customValue with
  | none => GoAny.string v.name
  | some a =>
    match a.value with
    | none => GoAny.string v.name
    | some bytes =>
      match deps.Unmarshal bytes with
      | .ok decoded => if decoded.isNil then GoAny.string v.name else decoded
      | .error _ => GoAny.string v.name

/-- The enum with the custom value of every enum value removed. -/
def Enum.withoutCustomValues (e : Enum) : Enum :=
  { e with values := e.values.map fun v => { v with options := { customValue := none } } }

/-! ## Fragments with `ref` and `type` -/

/-- No node among the schema, its `items` and its `additionalProperties`, and the nodes
nested in these in the same way, sets both `type` and `ref`. -/
def Schema.refOrTypeDeep : Schema → Bool
  | .mk kw _ items additionalProperties _ _ _ _ =>
    (decide (kw.type = "") || decide (kw.ref = ""))
      && (match items with
          | none => true
          | some inner => Schema.refOrTypeDeep inner)
      && (match additionalProperties with
          | none => true
          | some inner => Schema.refOrTypeDeep inner)

/-! ## Concrete inputs used to evaluate the builders -/

/-- A field type of a singular scalar field of the given kind. -/
def scalarType (protoType : ProtoType) : FieldType :=
  { protoType := protoType, isRepeated := false, isMap := false, enum := none, embed := none,
    element := none }

/-- A field `pkg.Msg.<name>` of kind `int32` with the given oneof and optional flags. -/
def int32Field (name : String) (inRealOneOf hasOptionalKeyword : Bool) : Field :=
  { name := name, fullyQualifiedName := ".pkg.Msg." ++ name, leadingComments := "",
    inRealOneOf := inRealOneOf, hasOptionalKeyword := hasOptionalKeyword,
    type := scalarType ProtoType.Int32T }

/-- The message of the end-to-end example of the spec: a field `count` and a oneof with the
members `name_a` and `name_b`, none of them optional. -/
def countMessage : Message where
  name := "Msg"
  fullyQualifiedName := ".pkg.Msg"
  leadingComments := ""
  fields := [int32Field "count" false false, int32Field "name_a" true false,
    int32Field "name_b" true false]
  oneOfs := [OneOf.mk "choice" [int32Field "name_a" true false, int32Field "name_b" true false]]

/-- A field type of a repeated scalar field of the given kind. -/
def repeatedScalarType (protoType : ProtoType) : FieldType :=
  { protoType := protoType, isRepeated := true, isMap := false, enum := none, embed := none,
    element := some { protoType := protoType, enum := none, embed := none } }

/-- The repeated string field `pkg.Msg.tags`. -/
def tagsField : Field :=
  { name := "tags", fullyQualifiedName := ".pkg.Msg.tags", leadingComments := "",
    inRealOneOf := false, hasOptionalKeyword := false,
    type := repeatedScalarType ProtoType.StringT }

/-- The singular string field `pkg.Msg.tag`. -/
def tagField : Field :=
  { name := "tag", fullyQualifiedName := ".pkg.Msg.tag", leadingComments := "",
    inRealOneOf := false, hasOptionalKeyword := false, type := scalarType ProtoType.StringT }

/-- The field type of a singular field whose type is the message `pkg.User`. -/
def userType : FieldType :=
  { protoType := ProtoType.MessageT, isRepeated := false, isMap := false, enum := none,
    embed := some { fullyQualifiedName := ".pkg.User" }, element := none }

/-- The element of a repeated field or of a map whose values are the message `pkg.User`. -/
def userElem : FieldTypeElem :=
  { protoType := ProtoType.MessageT, enum := none,
    embed := some { fullyQualifiedName := ".pkg.User" } }

/-- The field type of a repeated field whose element type is the message `pkg.User`. -/
def repeatedUserType : FieldType :=
  { protoType := ProtoType.MessageT, isRepeated := true, isMap := false, enum := none,
    embed := none, element := some userElem }

/-- The singular field `pkg.Msg.owner` whose type is the message `pkg.User`. -/
def ownerField : Field :=
  { name := "owner", fullyQualifiedName := ".pkg.Msg.owner", leadingComments := "",
    inRealOneOf := false, hasOptionalKeyword := false, type := userType }

/-- The repeated field `pkg.Team.members` whose element type is the message `pkg.User`. -/
def membersField : Field :=
  { name := "members", fullyQualifiedName := ".pkg.Team.members", leadingComments := "",
    inRealOneOf := false, hasOptionalKeyword := false, type := repeatedUserType }

/-- The map field `pkg.Team.byName` whose values are the message `pkg.User`. -/
def byNameField : Field :=
  { name := "byName", fullyQualifiedName := ".pkg.Team.byName", leadingComments := "",
    inRealOneOf := false, hasOptionalKeyword := false,
    type := { repeatedUserType with isRepeated := false, isMap := true } }

/-- The enum value `pkg.Color.<name>` with the given ordinal and no custom value. -/
def colorValue (name : String) (value : Int) : EnumValue :=
  { name := name, value := value, fullyQualifiedName := ".pkg.Color." ++ name,
    options := { customValue := none } }

/-- The enum `pkg.Color` with the values `A = 0` and `B = 5`, in the given mapping mode. -/
def colorEnum (mappingType : MappingType) : Enum :=
  { name := "Color", fullyQualifiedName := ".pkg.Color", leadingComments := "",
    values := [colorValue "A" 0, colorValue "B" 5],
    options := { title := "", description := "", mappingType := mappingType } }

/-- The enum value `pkg.Color.<name>` with the custom value whose bytes are `payload`. -/
def customValue (name : String) (fullyQualifiedName : String) (payload : Option (List Nat)) :
    EnumValue :=
  { name := name, value := 0, fullyQualifiedName := fullyQualifiedName,
    options := { customValue := some { typeUrl := "", value := payload } } }

/-- The enum `pkg.Color` in the mode `MapToCustom` with the given values. -/
def customEnum (values : List EnumValue) : Enum :=
  { name := "Color", fullyQualifiedName := ".pkg.Color", leadingComments := "",
    values := values,
    options := { title := "", description := "", mappingType := MappingType.MapToCustom } }

/-- The bytes of the JSON text `"b"`, a string. -/
def payloadB : List Nat := [34, 98, 34]

/-- The bytes of the JSON text `null`. -/
def payloadNull : List Nat := [110, 117, 108, 108]

/-- The bytes of the text `b`, which is not JSON. -/
def payloadBad : List Nat := [98]

/-- The singular enum field `pkg.Msg.color` whose type is the enum `pkg.Color`. -/
def colorField : Field :=
  { name := "color", fullyQualifiedName := ".pkg.Msg.color", leadingComments := "",
    inRealOneOf := false, hasOptionalKeyword := false,
    type := { scalarType ProtoType.EnumT with enum := some (colorEnum MappingType.MapToString) } }

/-- Field options that set the title `Tags` and the description `labels`, nothing else. -/
def tagsOptions : FieldOptions :=
  { title := "Tags", description := "labels", numeric := none, string := none, array := none }

/-- A stand-in for `json.Unmarshal` into an `any` on the payloads used below: `null` gives
the nil interface, `true` and `false` the booleans, and a quoted run of letters and digits
the string; the empty input and every other input are rejected with an error. -/
def sampleUnmarshal : List Nat → Except GoError GoAny
  | [] => .error { msg := "unexpected end of JSON input" }
  | [110, 117, 108, 108] => .ok GoAny.nil
  | [116, 114, 117, 101] => .ok (GoAny.bool true)
  | [102, 97, 108, 115, 101] => .ok (GoAny.bool false)
  | 34 :: rest =>
    if rest.getLast? = some 34
        ∧ rest.dropLast.all (fun c => (48 ≤ c ∧ c ≤ 57) ∨ (65 ≤ c ∧ c ≤ 90) ∨ (97 ≤ c ∧ c ≤ 122))
    then .ok (GoAny.string (String.mk (rest.dropLast.map Char.ofNat)))
    else .error { msg := "invalid character in string literal" }
  | _ => .error { msg := "invalid character looking for beginning of value" }

/-- An instance of the outside functions: names are left as they are, a description is the
one of the options or else the leading comment, object keywords leave the schema alone, and
the decoder is `sampleUnmarshal`. -/
def sampleDeps : Deps where
  UpperCamelCase := fun s => s
  GetDescription := fun field fo =>
    match fo with
    | none => field.leadingComments
    | some o => o.description
  GetDescriptionOfEnum := fun _ eo => eo.description
  fillSchemaByObjectKeywords := fun schema _ => schema
  Unmarshal := sampleUnmarshal

end Modules

namespace Modules

/-! ## Reading a keyword after an assignment -/

section Accessors

variable (s : Schema)

@[simp] theorem Schema.required_setRequired (v : List String) :
    (s.setRequired v).required = v := by cases s; rfl
@[simp] theorem Schema.required_setProperties (p : List (String × Schema)) :
    (s.setProperties p).required = s.required := by cases s; rfl
@[simp] theorem Schema.required_setAllOf (l : List Schema) :
    (s.setAllOf l).required = s.required := by cases s; rfl
@[simp] theorem Schema.properties_setRequired (v : List String) :
    (s.setRequired v).properties = s.properties := by cases s; rfl
@[simp] theorem Schema.properties_setProperties (p : List (String × Schema)) :
    (s.setProperties p).properties = p := by cases s; rfl
@[simp] theorem Schema.properties_setAllOf (l : List Schema) :
    (s.setAllOf l).properties = s.properties := by cases s; rfl
@[simp] theorem Schema.allOf_setRequired (v : List String) :
    (s.setRequired v).allOf = s.allOf := by cases s; rfl
@[simp] theorem Schema.allOf_setProperties (p : List (String × Schema)) :
    (s.setProperties p).allOf = s.allOf := by cases s; rfl
@[simp] theorem Schema.allOf_setAllOf (l : List Schema) :
    (s.setAllOf l).allOf = l := by cases s; rfl

end Accessors

/-! ## The two loops of `buildFromMessage` -/

/-- The test of `buildFromMessage` that puts a field into `required`. -/
theorem fieldStep_required (s : Schema) (f : Field) :
    (buildFromMessage.fieldStep s f).required =
      s.required ++ (if !f.inRealOneOf && !f.hasOptionalKeyword then [f.name] else []) := by
  unfold buildFromMessage.fieldStep
  by_cases h : (!f.inRealOneOf && !f.hasOptionalKeyword) = true
  · simp [h, toPropertyName]
  · simp [h]

theorem fieldStep_properties (s : Schema) (f : Field) :
    (buildFromMessage.fieldStep s f).properties =
      OrderedMap.Set s.properties f.name (Schema.empty.setRef (toDef f)) := by
  unfold buildFromMessage.fieldStep
  by_cases h : (!f.inRealOneOf && !f.hasOptionalKeyword) = true
  · simp [h, toPropertyName]
  · simp [h, toPropertyName]

theorem fieldStep_allOf (s : Schema) (f : Field) :
    (buildFromMessage.fieldStep s f).allOf = s.allOf := by
  unfold buildFromMessage.fieldStep
  by_cases h : (!f.inRealOneOf && !f.hasOptionalKeyword) = true
  · simp [h]
  · simp [h]

theorem foldl_fieldStep_required (l : List Field) (s : Schema) :
    (l.foldl buildFromMessage.fieldStep s).required =
      s.required ++
        (l.filter fun f => !f.inRealOneOf && !f.hasOptionalKeyword).map Field.name := by
  induction l generalizing s with
  | nil => simp
  | cons f l ih =>
    rw [List.foldl_cons, ih, fieldStep_required]
    by_cases h : (!f.inRealOneOf && !f.hasOptionalKeyword) = true
    · simp [List.filter_cons, h]
    · simp [List.filter_cons, h]

theorem foldl_fieldStep_allOf (l : List Field) (s : Schema) :
    (l.foldl buildFromMessage.fieldStep s).allOf = s.allOf := by
  induction l generalizing s with
  | nil => rfl
  | cons f l ih => rw [List.foldl_cons, ih, fieldStep_allOf]

theorem foldl_oneOfStep_required (l : List OneOf) (s : Schema) :
    (l.foldl buildFromMessage.oneOfStep s).required = s.required := by
  induction l generalizing s with
  | nil => rfl
  | cons g l ih => rw [List.foldl_cons, ih]; simp [buildFromMessage.oneOfStep]

theorem foldl_oneOfStep_properties (l : List OneOf) (s : Schema) :
    (l.foldl buildFromMessage.oneOfStep s).properties = s.properties := by
  induction l generalizing s with
  | nil => rfl
  | cons g l ih => rw [List.foldl_cons, ih]; simp [buildFromMessage.oneOfStep]

theorem foldl_oneOfStep_allOf (l : List OneOf) (s : Schema) :
    (l.foldl buildFromMessage.oneOfStep s).allOf =
      s.allOf ++ l.map buildFromMessage.oneOfSchema := by
  induction l generalizing s with
  | nil => simp
  | cons g l ih => rw [List.foldl_cons, ih]; simp [buildFromMessage.oneOfStep]

theorem header_required (deps : Deps) (m : Message) :
    (buildFromMessage.header deps m).required = [] := rfl

theorem header_properties (deps : Deps) (m : Message) :
    (buildFromMessage.header deps m).properties = [] := rfl

theorem header_allOf (deps : Deps) (m : Message) :
    (buildFromMessage.header deps m).allOf = [] := rfl

/-- The `required` list of `buildFromMessage`: what the object keywords left there, followed
by the names of the fields that pass the test, in declaration order. -/
theorem buildFromMessage_required_eq (deps : Deps) (m : Message) (mo : Option MessageOptions) :
    (buildFromMessage deps m mo).required =
      (deps.fillSchemaByObjectKeywords (buildFromMessage.header deps m)
          (MessageOptions.GetObject mo)).required ++
        (m.fields.filter fun f => !f.inRealOneOf && !f.hasOptionalKeyword).map Field.name := by
  unfold buildFromMessage
  simp only [foldl_oneOfStep_required, foldl_fieldStep_required]

/-- Fields of one list with pairwise distinct names are determined by their name. -/
theorem field_eq_of_name_eq {l : List Field} (hnames : (l.map Field.name).Nodup)
    {f g : Field} (hf : f ∈ l) (hg : g ∈ l) (h : f.name = g.name) : f = g :=
  List.inj_on_of_nodup_map hnames hf hg h

/-- Claim C1: For a message whose fields have pairwise distinct names and whose object-level
options add nothing to `required`, the `required` list of `buildFromMessage` is the list, in
declaration order, of the property names of the fields that are not in a real oneof and
carry no optional marker; so a field's property name is in `required` iff the field is not
in a real oneof and has no optional marker, and the name of a field in a real oneof is
never in `required`, whatever its optional marker is. -/
theorem buildFromMessage_required (deps : Deps) (m : Message) (mo : Option MessageOptions)
    (hobj : ∀ s, (deps.fillSchemaByObjectKeywords s (MessageOptions.GetObject mo)).required =
      s.required)
    (hnames : (m.fields.map Field.name).Nodup) :
    (buildFromMessage deps m mo).required =
        (m.fields.filter fun f => f.inRealOneOf = false ∧ f.hasOptionalKeyword = false).map
          (fun f => toPropertyName f.name)
      ∧ (∀ f ∈ m.fields, toPropertyName f.name ∈ (buildFromMessage deps m mo).required ↔
          (f.inRealOneOf = false ∧ f.hasOptionalKeyword = false))
      ∧ (∀ f ∈ m.fields, f.inRealOneOf = true →
          toPropertyName f.name ∉ (buildFromMessage deps m mo).required) := by
  have hreq : (buildFromMessage deps m mo).required =
      (m.fields.filter fun f => f.inRealOneOf = false ∧ f.hasOptionalKeyword = false).map
        fun f => toPropertyName f.name := by
    rw [buildFromMessage_required_eq, hobj, header_required, List.nil_append]
    have hfilter : (m.fields.filter fun f => !f.inRealOneOf && !f.hasOptionalKeyword) =
        m.fields.filter fun f => f.inRealOneOf = false ∧ f.hasOptionalKeyword = false := by
      apply List.filter_congr
      intro f _
      cases f.inRealOneOf <;> cases f.hasOptionalKeyword <;> simp
    rw [hfilter]
    rfl
  have hiff : ∀ f ∈ m.fields, toPropertyName f.name ∈ (buildFromMessage deps m mo).required ↔
      (f.inRealOneOf = false ∧ f.hasOptionalKeyword = false) := by
    intro f hf
    rw [hreq]
    constructor
    · intro hmem
      obtain ⟨g, hg, hgn⟩ := List.mem_map.mp hmem
      have hgf : g = f := field_eq_of_name_eq hnames (List.mem_filter.mp hg).1 hf hgn
      have hp := (List.mem_filter.mp hg).2
      rw [hgf] at hp
      simpa using hp
    · intro hp
      exact List.mem_map.mpr ⟨f, List.mem_filter.mpr ⟨hf, by simpa using hp⟩, rfl⟩
  refine ⟨hreq, hiff, ?_⟩
  intro f hf hin hmem
  have := ((hiff f hf).mp hmem).1
  rw [hin] at this
  exact Bool.noConfusion this

/-- The theorem `buildFromMessage_required` at the message `countMessage`, whose field
`count` is the only one outside the oneof. -/
theorem buildFromMessage_required_witness :
    (countMessage.fields.map Field.name).Nodup ∧
      (buildFromMessage sampleDeps countMessage none).required = ["count"] :=
  ⟨by decide,
    (buildFromMessage_required sampleDeps countMessage none (fun _ => rfl) (by decide)).1.trans
      (by decide)⟩

/-- The schema `{required: [name]}` with no other keyword set. -/
theorem setRequired_empty (name : String) :
    Schema.empty.setRequired [name] =
      Schema.mk { required := [name] } [] none none [] none [] none := rfl

/-- The `oneOf` list of the schema built for a oneof group: one `{required: [name]}` per
member, then the negative schema over the same list. -/
theorem oneOfSchema_oneOf (g : OneOf) :
    (buildFromMessage.oneOfSchema g).oneOf =
      (g.fields.map fun f => Schema.mk { required := [f.name] } [] none none [] none [] none) ++
        [Schema.mk {} [] none none [] none [] (some (Schema.mk {} [] none none []
          (some (g.fields.map fun f =>
            Schema.mk { required := [f.name] } [] none none [] none [] none))
          [] none))] := by
  simp [buildFromMessage.oneOfSchema, toPropertyName, Schema.setOneOf, Schema.empty,
    Schema.oneOf, Schema.setNot, Schema.setAnyOf, Schema.setRequired, Schema.withKw,
    Function.comp_def]

theorem buildFromMessage_allOf_eq (deps : Deps) (m : Message) (mo : Option MessageOptions) :
    (buildFromMessage deps m mo).allOf =
      (deps.fillSchemaByObjectKeywords (buildFromMessage.header deps m)
          (MessageOptions.GetObject mo)).allOf ++
        m.oneOfs.map buildFromMessage.oneOfSchema := by
  unfold buildFromMessage
  simp only [foldl_oneOfStep_allOf, foldl_fieldStep_allOf]

/-- Claim C2: The `allOf` list of `buildFromMessage` is what the object keywords left there
followed by one fragment per oneof group; the fragment of a group with `n` member fields has
a `oneOf` list of exactly `n + 1` branches, branch `i < n` being `{required: [name of the
i-th member]}` with nothing else set and the last branch being `{not: {anyOf: L}}` with `L`
the same `n` per-member fragments in the same order. For the message with the field `count`
and the oneof of `name_a` and `name_b`, whenever the object keywords add nothing to
`required` and `allOf`, `required` is `["count"]` and `allOf` has one entry, whose `oneOf`
has 3 branches. -/
theorem buildFromMessage_oneOf_branches :
    (∀ (deps : Deps) (m : Message) (mo : Option MessageOptions),
      (buildFromMessage deps m mo).allOf =
        (deps.fillSchemaByObjectKeywords (buildFromMessage.header deps m)
            (MessageOptions.GetObject mo)).allOf ++
          m.oneOfs.map buildFromMessage.oneOfSchema)
    ∧ (∀ g : OneOf,
        (buildFromMessage.oneOfSchema g).oneOf.length = g.fields.length + 1
        ∧ (∀ (i : Nat) (h : i < g.fields.length),
            (buildFromMessage.oneOfSchema g).oneOf[i]? =
              some (Schema.mk { required := [toPropertyName (g.fields.get ⟨i, h⟩).name] }
                [] none none [] none [] none))
        ∧ (buildFromMessage.oneOfSchema g).oneOf[g.fields.length]? =
            some (Schema.mk {} [] none none [] none [] (some (Schema.mk {} [] none none []
              (some (g.fields.map fun f =>
                Schema.mk { required := [toPropertyName f.name] } [] none none [] none [] none))
              [] none))))
    ∧ (∀ (deps : Deps) (mo : Option MessageOptions),
        (∀ s, (deps.fillSchemaByObjectKeywords s (MessageOptions.GetObject mo)).required =
          s.required) →
        (∀ s, (deps.fillSchemaByObjectKeywords s (MessageOptions.GetObject mo)).allOf =
          s.allOf) →
        (buildFromMessage deps countMessage mo).required = ["count"]
        ∧ ∃ entry, (buildFromMessage deps countMessage mo).allOf = [entry]
            ∧ entry.oneOf.length = 3) := by
  refine ⟨buildFromMessage_allOf_eq, ?_, ?_⟩
  · intro g
    rw [oneOfSchema_oneOf]
    refine ⟨by simp, ?_, ?_⟩
    · intro i h
      rw [List.getElem?_append_left (by simpa using h)]
      simp [List.getElem?_map, List.getElem?_eq_getElem h, toPropertyName]
    · rw [List.getElem?_append_right (by simp)]
      simp [toPropertyName]
  · intro deps mo hreq hall
    constructor
    · rw [buildFromMessage_required_eq, hreq, header_required]
      decide
    · refine ⟨buildFromMessage.oneOfSchema (OneOf.mk "choice"
        [int32Field "name_a" true false, int32Field "name_b" true false]), ?_, ?_⟩
      · rw [buildFromMessage_allOf_eq, hall, header_allOf]
        rfl
      · rw [oneOfSchema_oneOf]
        rfl

/-- The theorem `buildFromMessage_oneOf_branches` at `sampleDeps`, whose object keywords
leave the schema alone: the end-to-end example of the spec. -/
theorem buildFromMessage_oneOf_branches_witness :
    (buildFromMessage sampleDeps countMessage none).required = ["count"]
    ∧ ∃ entry, (buildFromMessage sampleDeps countMessage none).allOf = [entry]
        ∧ entry.oneOf.length = 3 :=
  buildFromMessage_oneOf_branches.2.2 sampleDeps none (fun _ => rfl) (fun _ => rfl)

/-! ## The meaning of the clause of a oneof group -/

/-- The schema `{required: [name]}` accepts exactly when `name` is present. -/
theorem accepts_required (present : String → Bool) (name : String) :
    Schema.accepts present (Schema.mk { required := [name] } [] none none [] none [] none) =
      present name := by
  simp [Schema.accepts, Schema.acceptsAll, Schema.acceptsAnyOf, Schema.acceptsNot]

theorem countAccepting_append (present : String → Bool) (l₁ l₂ : List Schema) :
    Schema.countAccepting present (l₁ ++ l₂) =
      Schema.countAccepting present l₁ + Schema.countAccepting present l₂ := by
  induction l₁ with
  | nil => simp [Schema.countAccepting]
  | cons s l ih => simp [Schema.countAccepting, ih, Nat.add_assoc]

/-- Among the per-member schemas, as many accept as there are member names present. -/
theorem countAccepting_required (present : String → Bool) (names : List String) :
    Schema.countAccepting present
        (names.map fun n => Schema.mk { required := [n] } [] none none [] none [] none) =
      (names.filter present).length := by
  induction names with
  | nil => simp [Schema.countAccepting]
  | cons n l ih =>
    rw [List.map_cons, Schema.countAccepting, ih, accepts_required]
    cases h : present n <;> simp [List.filter_cons, h, Nat.add_comm]

/-- One of the per-member schemas accepts exactly when a member name is present. -/
theorem acceptsAny_required (present : String → Bool) (names : List String) :
    Schema.acceptsAny present
        (names.map fun n => Schema.mk { required := [n] } [] none none [] none [] none) =
      decide (0 < (names.filter present).length) := by
  induction names with
  | nil => simp [Schema.acceptsAny]
  | cons n l ih =>
    rw [List.map_cons, Schema.acceptsAny, ih, accepts_required]
    cases h : present n <;> simp [List.filter_cons, h]

/-- The clause of a oneof group accepts exactly when the group has a member and at most one
entry of the list of its member names is present. -/
theorem oneOfSchema_accepts_count (g : OneOf) (present : String → Bool) :
    Schema.accepts present (buildFromMessage.oneOfSchema g) = true ↔
      g.fields ≠ []
        ∧ ((g.fields.map fun f => toPropertyName f.name).filter present).length ≤ 1 := by
  have hshape : buildFromMessage.oneOfSchema g =
      Schema.mk {} [] none none [] none
        (((g.fields.map fun f => toPropertyName f.name).map fun n =>
            Schema.mk { required := [n] } [] none none [] none [] none) ++
          [Schema.mk {} [] none none [] none [] (some (Schema.mk {} [] none none []
            (some ((g.fields.map fun f => toPropertyName f.name).map fun n =>
              Schema.mk { required := [n] } [] none none [] none [] none)) [] none))])
        none := rfl
  have hfields : g.fields ≠ [] ↔ (g.fields.map fun f => toPropertyName f.name) ≠ [] := by
    simp
  rw [hshape, hfields]
  generalize (g.fields.map fun f => toPropertyName f.name) = names
  have hneg : Schema.accepts present (Schema.mk {} [] none none [] none []
      (some (Schema.mk {} [] none none []
        (some (names.map fun n => Schema.mk { required := [n] } [] none none [] none [] none))
        [] none))) =
      !(names.isEmpty || decide (0 < (names.filter present).length)) := by
    simp only [Schema.accepts, Schema.acceptsAll, Schema.acceptsAnyOf, Schema.acceptsNot,
      acceptsAny_required]
    cases names <;> simp
  simp only [Schema.accepts, Schema.acceptsAll, Schema.acceptsAnyOf, Schema.acceptsNot,
    countAccepting_append, countAccepting_required]
  rw [show Schema.countAccepting present [Schema.mk {} [] none none [] none []
      (some (Schema.mk {} [] none none []
        (some (names.map fun n => Schema.mk { required := [n] } [] none none [] none [] none))
        [] none))] =
      if (names.isEmpty || decide (0 < (names.filter present).length)) = true then 0 else 1 by
    rw [Schema.countAccepting, hneg]
    cases (names.isEmpty || decide (0 < (names.filter present).length)) <;>
      simp [Schema.countAccepting]]
  cases names with
  | nil => simp
  | cons n rest =>
    by_cases h : 0 < ((n :: rest).filter present).length
    · simp [h]
      omega
    · have h0 : ((n :: rest).filter present).length = 0 := by omega
      simp [h0]

/-- In a list without repetition, at most one entry satisfies a test exactly when any two
entries that satisfy it are equal. -/
theorem filter_length_le_one_iff {names : List String} (hnodup : names.Nodup)
    (present : String → Bool) :
    (names.filter present).length ≤ 1 ↔
      ∀ a ∈ names, ∀ b ∈ names, present a = true → present b = true → a = b := by
  constructor
  · intro hlen a ha b hb hpa hpb
    have ha2 : a ∈ names.filter present := List.mem_filter.mpr ⟨ha, hpa⟩
    have hb2 : b ∈ names.filter present := List.mem_filter.mpr ⟨hb, hpb⟩
    match hl : names.filter present, hlen with
    | [], _ => rw [hl] at ha2; cases ha2
    | [x], _ =>
      rw [hl] at ha2 hb2
      rw [List.mem_singleton.mp ha2, List.mem_singleton.mp hb2]
    | _ :: _ :: _, hlen => simp at hlen
  · intro hall
    have hnd : (names.filter present).Nodup := hnodup.filter _
    match hl : names.filter present with
    | [] => simp
    | [_] => simp
    | x :: y :: rest =>
      exfalso
      rw [hl] at hnd
      have hx : x ∈ names.filter present := by rw [hl]; simp
      have hy : y ∈ names.filter present := by rw [hl]; simp
      have hxy : x = y := hall x (List.mem_filter.mp hx).1 y (List.mem_filter.mp hy).1
        (List.mem_filter.mp hx).2 (List.mem_filter.mp hy).2
      rw [hxy] at hnd
      simp at hnd

/-- Claim C3, counterexample: The clause generated for a oneof group without members is
`{oneOf: [{not: {anyOf: []}}]}`, whose empty `anyOf` is an absent keyword; for the object
without properties, in which at most one member name of the group is present, the clause
does not accept. -/
theorem oneOfSchema_rejects_empty_group :
    buildFromMessage.oneOfSchema (OneOf.mk "choice" []) =
        Schema.mk {} [] none none [] none
          [Schema.mk {} [] none none [] none []
            (some (Schema.mk {} [] none none [] (some []) [] none))] none
      ∧ (∀ a ∈ (OneOf.mk "choice" []).fields.map (fun f => toPropertyName f.name),
          ∀ b ∈ (OneOf.mk "choice" []).fields.map (fun f => toPropertyName f.name),
            (fun _ : String => false) a = true → (fun _ : String => false) b = true → a = b)
      ∧ Schema.accepts (fun _ => false) (buildFromMessage.oneOfSchema (OneOf.mk "choice" [])) =
          false :=
  ⟨rfl, fun a ha => absurd ha (List.not_mem_nil a), rfl⟩

/-- Claim C3, amended: Under the standard meaning of `required`, `anyOf`, `not` and `oneOf`
(exactly one branch holds), a keyword with an empty list being absent, the clause that
`buildFromMessage` generates for a oneof group that has at least one member and whose member
names are pairwise distinct accepts a set of present property names iff at most one member
name of the group is present: any two member names that are present are the same name. A
group with one member has a clause that accepts every set; a group without members has a
clause that accepts no set. -/
theorem oneOfSchema_accepts_iff (g : OneOf)
    (hnodup : (g.fields.map fun f => toPropertyName f.name).Nodup)
    (present : String → Bool) :
    (g.fields ≠ [] →
        (Schema.accepts present (buildFromMessage.oneOfSchema g) = true ↔
          ∀ a ∈ g.fields.map (fun f => toPropertyName f.name),
            ∀ b ∈ g.fields.map (fun f => toPropertyName f.name),
              present a = true → present b = true → a = b))
      ∧ (g.fields.length = 1 →
          Schema.accepts present (buildFromMessage.oneOfSchema g) = true)
      ∧ (g.fields = [] →
          Schema.accepts present (buildFromMessage.oneOfSchema g) = false) := by
  refine ⟨?_, ?_, ?_⟩
  · intro hne
    rw [oneOfSchema_accepts_count, ← filter_length_le_one_iff hnodup]
    exact ⟨fun h => h.2, fun h => ⟨hne, h⟩⟩
  · intro hlen
    rw [oneOfSchema_accepts_count]
    refine ⟨fun h => ?_, ?_⟩
    · rw [h] at hlen
      cases hlen
    · calc ((g.fields.map fun f => toPropertyName f.name).filter present).length
          ≤ (g.fields.map fun f => toPropertyName f.name).length :=
            List.length_filter_le _ _
        _ = g.fields.length := List.length_map _ _
        _ ≤ 1 := Nat.le_of_eq hlen
  · intro hnil
    cases hacc : Schema.accepts present (buildFromMessage.oneOfSchema g) with
    | false => rfl
    | true => exact absurd hnil ((oneOfSchema_accepts_count g present).mp hacc).1

/-- The theorem `oneOfSchema_accepts_iff` at the oneof of `name_a` and `name_b`, for an object
in which both members are present: the clause rejects it. -/
theorem oneOfSchema_accepts_iff_witness :
    Schema.accepts (fun _ => true) (buildFromMessage.oneOfSchema (OneOf.mk "choice"
      [int32Field "name_a" true false, int32Field "name_b" true false])) ≠ true :=
  fun h =>
    absurd (((oneOfSchema_accepts_iff (OneOf.mk "choice"
        [int32Field "name_a" true false, int32Field "name_b" true false]) (by decide)
        (fun _ => true)).1 (by decide)).mp h "name_a" (by decide) "name_b" (by decide) rfl rfl)
      (by decide)

/-! ## The `properties` map of a message -/

/-- Setting a key that the ordered map does not hold appends the entry. -/
theorem OrderedMap.Set_of_not_mem (m : List (String × Schema)) (key : String) (value : Schema)
    (h : key ∉ OrderedMap.Keys m) : OrderedMap.Set m key value = m ++ [(key, value)] := by
  induction m with
  | nil => rfl
  | cons kv rest ih =>
    obtain ⟨k, v⟩ := kv
    have hk : ¬ k = key := fun e => h (by simp [OrderedMap.Keys, e])
    have hrest : key ∉ OrderedMap.Keys rest := fun e => h (by
      simp only [OrderedMap.Keys, List.map_cons, List.mem_cons]
      exact Or.inr e)
    simp [OrderedMap.Set, hk, ih hrest]

/-- The value the ordered map holds under the key of an entry, when no two entries share a
key. -/
theorem OrderedMap.Get_of_mem (m : List (String × Schema)) (hnodup : (OrderedMap.Keys m).Nodup)
    (key : String) (value : Schema) (h : (key, value) ∈ m) :
    OrderedMap.Get m key = some value := by
  induction m with
  | nil => cases h
  | cons kv rest ih =>
    obtain ⟨k, v⟩ := kv
    simp only [OrderedMap.Keys, List.map_cons, List.nodup_cons] at hnodup
    rcases List.mem_cons.mp h with heq | hmem
    · cases heq
      simp [OrderedMap.Get]
    · have hk : ¬ k = key := by
        intro e
        apply hnodup.1
        rw [e]
        exact List.mem_map.mpr ⟨(key, value), hmem, rfl⟩
      simp only [OrderedMap.Get, hk, if_false]
      exact ih hnodup.2 hmem

/-- The loop over the fields appends one entry per field when the names are new and pairwise
distinct. -/
theorem foldl_fieldStep_properties (l : List Field) (s : Schema)
    (hnodup : (l.map Field.name).Nodup)
    (hnew : ∀ f ∈ l, f.name ∉ OrderedMap.Keys s.properties) :
    (l.foldl buildFromMessage.fieldStep s).properties =
      s.properties ++ l.map fun f => (f.name, Schema.empty.setRef (toDef f)) := by
  induction l generalizing s with
  | nil => simp
  | cons f l ih =>
    simp only [List.map_cons, List.nodup_cons] at hnodup
    have hstep : (buildFromMessage.fieldStep s f).properties =
        s.properties ++ [(f.name, Schema.empty.setRef (toDef f))] := by
      rw [fieldStep_properties, OrderedMap.Set_of_not_mem _ _ _ (hnew f (List.mem_cons_self _ _))]
    rw [List.foldl_cons, ih _ hnodup.2, hstep]
    · simp
    · intro g hg hmem
      rw [hstep] at hmem
      simp only [OrderedMap.Keys, List.map_append, List.map_cons, List.map_nil,
        List.mem_append, List.mem_singleton] at hmem
      rcases hmem with hold | heq
      · exact hnew g (List.mem_cons_of_mem _ hg) hold
      · exact hnodup.1 (heq ▸ List.mem_map.mpr ⟨g, hg, rfl⟩)

/-- Claim C4: For a message whose fields have pairwise distinct names (and whose object-level
options add nothing to `properties`), the keys of `properties` of `buildFromMessage`, in
insertion order, are the declared names of the fields in declaration order, unchanged
(`toPropertyName` is the identity), and the value stored under the name of each field is the
fragment whose only set keyword is `ref`, the reference string `toDef` of the field, which is
`#/$defs/` followed by the fully-qualified name of the field. -/
theorem buildFromMessage_properties (deps : Deps) (m : Message) (mo : Option MessageOptions)
    (hobj : ∀ s, (deps.fillSchemaByObjectKeywords s (MessageOptions.GetObject mo)).properties =
      s.properties)
    (hnames : (m.fields.map Field.name).Nodup) :
    OrderedMap.Keys (buildFromMessage deps m mo).properties = m.fields.map Field.name
      ∧ (∀ name : String, toPropertyName name = name)
      ∧ (∀ f ∈ m.fields,
          OrderedMap.Get (buildFromMessage deps m mo).properties (toPropertyName f.name) =
            some (Schema.mk { ref := toDef f } [] none none [] none [] none)
          ∧ toDef f = "#/$defs/" ++ f.fullyQualifiedName) := by
  have hprops : (buildFromMessage deps m mo).properties =
      m.fields.map fun f => (f.name, Schema.empty.setRef (toDef f)) := by
    unfold buildFromMessage
    simp only [foldl_oneOfStep_properties]
    rw [foldl_fieldStep_properties _ _ hnames, hobj, header_properties, List.nil_append]
    intro f _
    rw [hobj, header_properties]
    simp [OrderedMap.Keys]
  have hkeys : OrderedMap.Keys (buildFromMessage deps m mo).properties =
      m.fields.map Field.name := by
    rw [hprops]
    simp [OrderedMap.Keys, Function.comp_def]
  refine ⟨hkeys, fun _ => rfl, ?_⟩
  intro f hf
  refine ⟨?_, rfl⟩
  apply OrderedMap.Get_of_mem
  · rw [hkeys]
    exact hnames
  · rw [hprops]
    exact List.mem_map.mpr ⟨f, hf, rfl⟩

/-- The theorem `buildFromMessage_properties` at the message `countMessage`: the keys are
`count`, `name_a`, `name_b`, in this order. -/
theorem buildFromMessage_properties_witness :
    (countMessage.fields.map Field.name).Nodup ∧
      OrderedMap.Keys (buildFromMessage sampleDeps countMessage none).properties =
        ["count", "name_a", "name_b"] :=
  ⟨by decide,
    (buildFromMessage_properties sampleDeps countMessage none (fun _ => rfl) (by decide)).1.trans
      (by decide)⟩

/-! ## Array wrapping -/

/-- The array keywords touch no keyword other than `minItems`, `maxItems`, `uniqueItems`. -/
theorem fillSchemaByArrayKeywords_frame (s : Schema) (a : Option ArrayKeywords) :
    (fillSchemaByArrayKeywords s a).type = s.type
      ∧ (fillSchemaByArrayKeywords s a).title = s.title
      ∧ (fillSchemaByArrayKeywords s a).description = s.description
      ∧ (fillSchemaByArrayKeywords s a).ref = s.ref
      ∧ (fillSchemaByArrayKeywords s a).items = s.items := by
  cases s
  cases a <;> simp [fillSchemaByArrayKeywords, Schema.withKw, Schema.type, Schema.title,
    Schema.description, Schema.ref, Schema.items, Schema.kw]

/-- The fragment of `wrapSchemaInArray`: an array with the title and the description of the
inner schema, no `ref`, and the inner schema itself as `items`. -/
theorem wrapSchemaInArray_eq (s : Schema) (field : Field) (fo : Option FieldOptions) :
    (wrapSchemaInArray s field fo).type = "array"
      ∧ (wrapSchemaInArray s field fo).title = s.title
      ∧ (wrapSchemaInArray s field fo).description = s.description
      ∧ (wrapSchemaInArray s field fo).ref = ""
      ∧ (wrapSchemaInArray s field fo).items = some s := by
  unfold wrapSchemaInArray
  obtain ⟨h1, h2, h3, h4, h5⟩ := fillSchemaByArrayKeywords_frame
    ((((Schema.empty.setTitle s.title).setDescription s.description).setType "array").setItems
      (some s)) (FieldOptions.GetArray fo)
  simp only [h1, h2, h3, h4, h5]
  exact ⟨rfl, rfl, rfl, rfl, rfl⟩

/-! ## The field builders -/

/-- The numeric keywords touch no keyword other than `minimum`, `maximum`, `multipleOf`. -/
theorem fillSchemaByNumericKeywords_frame (s : Schema) (n : Option NumericKeywords) :
    (fillSchemaByNumericKeywords s n).type = s.type
      ∧ (fillSchemaByNumericKeywords s n).title = s.title
      ∧ (fillSchemaByNumericKeywords s n).description = s.description
      ∧ (fillSchemaByNumericKeywords s n).ref = s.ref := by
  cases s
  cases n <;> simp [fillSchemaByNumericKeywords, Schema.withKw, Schema.type, Schema.title,
    Schema.description, Schema.ref, Schema.kw]

/-- The string keywords touch no keyword other than `pattern`, `minLength`, `maxLength`. -/
theorem fillSchemaByStringKeywords_frame (s : Schema) (c : Option StringKeywords) :
    (fillSchemaByStringKeywords s c).type = s.type
      ∧ (fillSchemaByStringKeywords s c).title = s.title
      ∧ (fillSchemaByStringKeywords s c).description = s.description
      ∧ (fillSchemaByStringKeywords s c).ref = s.ref := by
  cases s
  cases c <;> simp [fillSchemaByStringKeywords, Schema.withKw, Schema.type, Schema.title,
    Schema.description, Schema.ref, Schema.kw]

/-- The schema before the dispatch of a field builder: title and description set. -/
theorem titled_eq (t d : String) :
    (Schema.empty.setTitle t).setDescription d =
      Schema.mk { title := t, description := d } [] none none [] none [] none := rfl

/-- Title and description of the first part of `buildFromScalaField`. -/
theorem scalaElement_title (deps : Deps) (f : Field) (fo : Option FieldOptions) (s : Schema)
    (h : buildFromScalaField.element deps f fo = some s) :
    s.title = GetTitleOrEmpty fo ∧ s.description = deps.GetDescription f fo := by
  unfold buildFromScalaField.element at h
  simp only [titled_eq] at h
  split_ifs at h
  · cases Option.some.inj h
    obtain ⟨_, h2, h3, _⟩ := fillSchemaByNumericKeywords_frame
      ((Schema.mk { title := GetTitleOrEmpty fo, description := deps.GetDescription f fo }
        [] none none [] none [] none).setType "number") (FieldOptions.GetNumeric fo)
    exact ⟨h2, h3⟩
  · cases Option.some.inj h
    exact ⟨rfl, rfl⟩
  · cases hel : f.type.element with
    | none => simp [hel] at h
    | some el =>
      cases hen : el.enum with
      | none => simp [hel, hen] at h
      | some e =>
        simp [hel, hen] at h
        cases h
        exact ⟨rfl, rfl⟩
  · cases hen : f.type.enum with
    | none => simp [hen] at h
    | some e =>
      simp [hen] at h
      cases h
      exact ⟨rfl, rfl⟩
  · cases Option.some.inj h
    obtain ⟨_, h2, h3, _⟩ := fillSchemaByStringKeywords_frame
      ((Schema.mk { title := GetTitleOrEmpty fo, description := deps.GetDescription f fo }
        [] none none [] none [] none).setType "string") (FieldOptions.GetString_ fo)
    exact ⟨h2, h3⟩
  · cases Option.some.inj h
    exact ⟨rfl, rfl⟩

/-- Title and description of the first part of `buildFromMessageField`. -/
theorem messageElement_title (deps : Deps) (f : Field) (fo : Option FieldOptions) (s : Schema)
    (h : buildFromMessageField.element deps f fo = some s) :
    s.title = GetTitleOrEmpty fo ∧ s.description = deps.GetDescription f fo := by
  unfold buildFromMessageField.element at h
  simp only [titled_eq] at h
  split_ifs at h
  · cases hel : f.type.element with
    | none => simp [hel] at h
    | some el =>
      cases hen : el.embed with
      | none => simp [hel, hen] at h
      | some e =>
        simp [hel, hen] at h
        cases h
        exact ⟨rfl, rfl⟩
  · cases hen : f.type.embed with
    | none => simp [hen] at h
    | some e =>
      simp [hen] at h
      cases h
      exact ⟨rfl, rfl⟩

/-- A repeated field: `buildFromScalaField` wraps its first part. -/
theorem buildFromScalaField_repeated (deps : Deps) (f : Field) (fo : Option FieldOptions)
    (hrep : f.type.isRepeated = true) :
    buildFromScalaField deps f fo =
      (buildFromScalaField.element deps f fo).map fun s => wrapSchemaInArray s f fo := by
  unfold buildFromScalaField
  cases buildFromScalaField.element deps f fo <;> simp [hrep]

/-- A singular field: `buildFromScalaField` returns its first part. -/
theorem buildFromScalaField_singular (deps : Deps) (f : Field) (fo : Option FieldOptions)
    (hrep : f.type.isRepeated = false) :
    buildFromScalaField deps f fo = buildFromScalaField.element deps f fo := by
  unfold buildFromScalaField
  cases buildFromScalaField.element deps f fo <;> simp [hrep]

/-- A repeated field: `buildFromMessageField` wraps its first part. -/
theorem buildFromMessageField_repeated (deps : Deps) (f : Field) (fo : Option FieldOptions)
    (hrep : f.type.isRepeated = true) :
    buildFromMessageField deps f fo =
      (buildFromMessageField.element deps f fo).map fun s => wrapSchemaInArray s f fo := by
  unfold buildFromMessageField
  cases buildFromMessageField.element deps f fo <;> simp [hrep]

/-- A singular field: `buildFromMessageField` returns its first part. -/
theorem buildFromMessageField_singular (deps : Deps) (f : Field) (fo : Option FieldOptions)
    (hrep : f.type.isRepeated = false) :
    buildFromMessageField deps f fo = buildFromMessageField.element deps f fo := by
  unfold buildFromMessageField
  cases buildFromMessageField.element deps f fo <;> simp [hrep]

/-- The first part of `buildFromScalaField` on a numeric kind. -/
theorem scalaElement_numeric (deps : Deps) (f : Field) (fo : Option FieldOptions)
    (h : f.type.protoType.IsNumeric = true) :
    buildFromScalaField.element deps f fo =
      some (fillSchemaByNumericKeywords
        (((Schema.empty.setTitle (GetTitleOrEmpty fo)).setDescription
          (deps.GetDescription f fo)).setType "number") (FieldOptions.GetNumeric fo)) := by
  unfold buildFromScalaField.element
  simp [h]

/-- The first part of `buildFromScalaField` on the kind `bool`. -/
theorem scalaElement_bool (deps : Deps) (f : Field) (fo : Option FieldOptions)
    (h : f.type.protoType = ProtoType.BoolT) :
    buildFromScalaField.element deps f fo =
      some (((Schema.empty.setTitle (GetTitleOrEmpty fo)).setDescription
        (deps.GetDescription f fo)).setType "boolean") := by
  unfold buildFromScalaField.element
  simp [h, ProtoType.IsNumeric]

/-- The first part of `buildFromScalaField` on the kinds `string` and `bytes`. -/
theorem scalaElement_string (deps : Deps) (f : Field) (fo : Option FieldOptions)
    (h : f.type.protoType = ProtoType.StringT ∨ f.type.protoType = ProtoType.BytesT) :
    buildFromScalaField.element deps f fo =
      some (fillSchemaByStringKeywords
        (((Schema.empty.setTitle (GetTitleOrEmpty fo)).setDescription
          (deps.GetDescription f fo)).setType "string") (FieldOptions.GetString_ fo)) := by
  unfold buildFromScalaField.element
  rcases h with h | h <;> simp [h, ProtoType.IsNumeric]

/-- The first part of `buildFromScalaField` on a singular enum field. -/
theorem scalaElement_enum_singular (deps : Deps) (f : Field) (fo : Option FieldOptions)
    (h : f.type.protoType = ProtoType.EnumT) (hrep : f.type.isRepeated = false) (e : Enum)
    (hen : f.type.enum = some e) :
    buildFromScalaField.element deps f fo =
      some (((Schema.empty.setTitle (GetTitleOrEmpty fo)).setDescription
        (deps.GetDescription f fo)).setRef (toDef e)) := by
  unfold buildFromScalaField.element
  simp [h, hrep, hen, ProtoType.IsNumeric]

/-- The first part of `buildFromScalaField` on a repeated enum field. -/
theorem scalaElement_enum_repeated (deps : Deps) (f : Field) (fo : Option FieldOptions)
    (h : f.type.protoType = ProtoType.EnumT) (hrep : f.type.isRepeated = true)
    (el : FieldTypeElem) (hel : f.type.element = some el) (e : Enum) (hen : el.enum = some e) :
    buildFromScalaField.element deps f fo =
      some (((Schema.empty.setTitle (GetTitleOrEmpty fo)).setDescription
        (deps.GetDescription f fo)).setRef (toDef e)) := by
  unfold buildFromScalaField.element
  simp [h, hrep, hel, hen, ProtoType.IsNumeric]

/-- What the numeric keywords write does not depend on title and description. -/
theorem fillSchemaByNumericKeywords_kw (t d t2 d2 : String) (n : Option NumericKeywords) :
    let a := fillSchemaByNumericKeywords
      (((Schema.empty.setTitle t).setDescription d).setType "number") n
    let b := fillSchemaByNumericKeywords
      (((Schema.empty.setTitle t2).setDescription d2).setType "number") n
    a.type = "number" ∧ b.type = "number" ∧ a.ref = "" ∧ b.ref = ""
      ∧ a.kw.minimum = b.kw.minimum ∧ a.kw.maximum = b.kw.maximum
      ∧ a.kw.multipleOf = b.kw.multipleOf ∧ a.kw.pattern = b.kw.pattern
      ∧ a.kw.minLength = b.kw.minLength ∧ a.kw.maxLength = b.kw.maxLength := by
  cases n <;> exact ⟨rfl, rfl, rfl, rfl, rfl, rfl, rfl, rfl, rfl, rfl⟩

/-- What the string keywords write does not depend on title and description. -/
theorem fillSchemaByStringKeywords_kw (t d t2 d2 : String) (c : Option StringKeywords) :
    let a := fillSchemaByStringKeywords
      (((Schema.empty.setTitle t).setDescription d).setType "string") c
    let b := fillSchemaByStringKeywords
      (((Schema.empty.setTitle t2).setDescription d2).setType "string") c
    a.type = "string" ∧ b.type = "string" ∧ a.ref = "" ∧ b.ref = ""
      ∧ a.kw.minimum = b.kw.minimum ∧ a.kw.maximum = b.kw.maximum
      ∧ a.kw.multipleOf = b.kw.multipleOf ∧ a.kw.pattern = b.kw.pattern
      ∧ a.kw.minLength = b.kw.minLength ∧ a.kw.maxLength = b.kw.maxLength := by
  cases c <;> exact ⟨rfl, rfl, rfl, rfl, rfl, rfl, rfl, rfl, rfl, rfl⟩

/-! ## Repeated fields -/

/-- Claim C5, counterexample: The repeated string field `tags` with the title `Tags` and the
description `labels`: the `items` fragment that `wrapSchemaInArray` returns, and so the one
that `buildFromScalaField` returns, still carries this title and this description; they are
not empty. -/
theorem wrapSchemaInArray_items_not_cleared :
    (∃ inner,
        (wrapSchemaInArray ((Schema.empty.setTitle "Tags").setDescription "labels") tagsField
          (some tagsOptions)).items = some inner
        ∧ inner.title = "Tags" ∧ inner.title ≠ ""
        ∧ inner.description = "labels" ∧ inner.description ≠ "")
      ∧ (∃ r inner,
        buildFromScalaField sampleDeps tagsField (some tagsOptions) = some r
        ∧ r.items = some inner
        ∧ inner.title = "Tags" ∧ inner.title ≠ ""
        ∧ inner.description = "labels" ∧ inner.description ≠ "") :=
  ⟨⟨(Schema.empty.setTitle "Tags").setDescription "labels", rfl, rfl, by decide, rfl,
      by decide⟩,
    ⟨_, _, rfl, rfl, rfl, by decide, rfl, by decide⟩⟩

/-- Claim C5, amended: `wrapSchemaInArray` returns an array-typed fragment whose title and
description are those of the inner fragment and whose `items` is the inner fragment as it
is, title and description included; hence for every repeated field the fragment returned by
`buildFromScalaField` and by `buildFromMessageField` is an array whose `items` carries the
same title and description as the array, those of the field. -/
theorem wrapSchemaInArray_items :
    (∀ (s : Schema) (field : Field) (fo : Option FieldOptions),
        (wrapSchemaInArray s field fo).type = "array"
        ∧ (wrapSchemaInArray s field fo).title = s.title
        ∧ (wrapSchemaInArray s field fo).description = s.description
        ∧ (wrapSchemaInArray s field fo).items = some s)
      ∧ (∀ (deps : Deps) (f : Field) (fo : Option FieldOptions) (r : Schema),
        f.type.isRepeated = true →
        (buildFromScalaField deps f fo = some r ∨ buildFromMessageField deps f fo = some r) →
        ∃ inner, r.items = some inner
          ∧ r.type = "array"
          ∧ r.title = GetTitleOrEmpty fo ∧ r.description = deps.GetDescription f fo
          ∧ inner.title = GetTitleOrEmpty fo
          ∧ inner.description = deps.GetDescription f fo) := by
  constructor
  · intro s field fo
    obtain ⟨h1, h2, h3, _, h5⟩ := wrapSchemaInArray_eq s field fo
    exact ⟨h1, h2, h3, h5⟩
  · intro deps f fo r hrep hr
    have key : ∀ el : Option Schema,
        (∀ s, el = some s →
          s.title = GetTitleOrEmpty fo ∧ s.description = deps.GetDescription f fo) →
        (el.map fun s => wrapSchemaInArray s f fo) = some r →
        ∃ inner, r.items = some inner ∧ r.type = "array"
          ∧ r.title = GetTitleOrEmpty fo ∧ r.description = deps.GetDescription f fo
          ∧ inner.title = GetTitleOrEmpty fo
          ∧ inner.description = deps.GetDescription f fo := by
      intro el hel hmap
      cases el with
      | none => cases hmap
      | some s =>
        cases Option.some.inj hmap
        obtain ⟨h1, h2, h3, _, h5⟩ := wrapSchemaInArray_eq s f fo
        obtain ⟨ht, hd⟩ := hel s rfl
        exact ⟨s, h5, h1, h2.trans ht, h3.trans hd, ht, hd⟩
    rcases hr with hr | hr
    · rw [buildFromScalaField_repeated deps f fo hrep] at hr
      exact key _ (scalaElement_title deps f fo) hr
    · rw [buildFromMessageField_repeated deps f fo hrep] at hr
      exact key _ (messageElement_title deps f fo) hr

/-- The theorem `wrapSchemaInArray_items` at the repeated string field `tags`: the returned
array and its `items` both carry the title `Tags`. -/
theorem wrapSchemaInArray_items_witness :
    ∃ r inner, buildFromScalaField sampleDeps tagsField (some tagsOptions) = some r
      ∧ r.items = some inner ∧ r.title = "Tags" ∧ inner.title = "Tags" :=
  match wrapSchemaInArray_items.2 sampleDeps tagsField (some tagsOptions)
      (wrapSchemaInArray (fillSchemaByStringKeywords
        (((Schema.empty.setTitle "Tags").setDescription "labels").setType "string") none)
        tagsField (some tagsOptions)) rfl (Or.inl rfl) with
  | ⟨inner, hitems, _, htitle, _, hinner, _⟩ => ⟨_, inner, rfl, hitems, htitle, hinner⟩

/-- Claim C6: For a repeated field `f` of scalar kind (numeric, bool, string, bytes or enum,
the element of an enum field carrying its enum) with options `fo`, `buildFromScalaField`
returns a fragment with `type` = "array" and no `ref`, whose title and description are those
derived from `f` and `fo`, and whose `items` agrees on `type`, `ref` and the numeric and
string constraint keywords with the fragment that `buildFromScalaField` returns for any
singular field `g` of the same kind (and the same enum) with the same options. -/
theorem buildFromScalaField_repeated_items (deps : Deps) (f g : Field)
    (fo : Option FieldOptions)
    (hrep : f.type.isRepeated = true)
    (hkind : f.type.protoType.IsNumeric = true ∨ f.type.protoType = ProtoType.BoolT
      ∨ f.type.protoType = ProtoType.StringT ∨ f.type.protoType = ProtoType.BytesT
      ∨ f.type.protoType = ProtoType.EnumT)
    (henum : f.type.protoType = ProtoType.EnumT →
      ∃ el e, f.type.element = some el ∧ el.enum = some e)
    (hsingular : g.type.isRepeated = false)
    (hsame : g.type.protoType = f.type.protoType)
    (hsameEnum : f.type.protoType = ProtoType.EnumT →
      g.type.enum = f.type.element.bind FieldTypeElem.enum) :
    ∃ r inner single,
      buildFromScalaField deps f fo = some r
      ∧ r.type = "array" ∧ r.ref = ""
      ∧ r.title = GetTitleOrEmpty fo ∧ r.description = deps.GetDescription f fo
      ∧ r.items = some inner
      ∧ buildFromScalaField deps g fo = some single
      ∧ inner.type = single.type ∧ inner.ref = single.ref
      ∧ inner.kw.minimum = single.kw.minimum ∧ inner.kw.maximum = single.kw.maximum
      ∧ inner.kw.multipleOf = single.kw.multipleOf ∧ inner.kw.pattern = single.kw.pattern
      ∧ inner.kw.minLength = single.kw.minLength
      ∧ inner.kw.maxLength = single.kw.maxLength := by
  have key : ∀ inner single : Schema,
      buildFromScalaField.element deps f fo = some inner →
      buildFromScalaField.element deps g fo = some single →
      (inner.type = single.type ∧ inner.ref = single.ref
        ∧ inner.kw.minimum = single.kw.minimum ∧ inner.kw.maximum = single.kw.maximum
        ∧ inner.kw.multipleOf = single.kw.multipleOf ∧ inner.kw.pattern = single.kw.pattern
        ∧ inner.kw.minLength = single.kw.minLength
        ∧ inner.kw.maxLength = single.kw.maxLength) →
      ∃ r inner single,
        buildFromScalaField deps f fo = some r
        ∧ r.type = "array" ∧ r.ref = ""
        ∧ r.title = GetTitleOrEmpty fo ∧ r.description = deps.GetDescription f fo
        ∧ r.items = some inner
        ∧ buildFromScalaField deps g fo = some single
        ∧ inner.type = single.type ∧ inner.ref = single.ref
        ∧ inner.kw.minimum = single.kw.minimum ∧ inner.kw.maximum = single.kw.maximum
        ∧ inner.kw.multipleOf = single.kw.multipleOf ∧ inner.kw.pattern = single.kw.pattern
        ∧ inner.kw.minLength = single.kw.minLength
        ∧ inner.kw.maxLength = single.kw.maxLength := by
    intro inner single hf hg hagree
    obtain ⟨h1, h2, h3, h4, h5⟩ := wrapSchemaInArray_eq inner f fo
    obtain ⟨ht, hd⟩ := scalaElement_title deps f fo inner hf
    refine ⟨wrapSchemaInArray inner f fo, inner, single, ?_, h1, h4, h2.trans ht, h3.trans hd,
      h5, ?_, hagree⟩
    · rw [buildFromScalaField_repeated deps f fo hrep, hf]
      rfl
    · rw [buildFromScalaField_singular deps g fo hsingular, hg]
  rcases hkind with hk | hk | hk | hk | hk
  · obtain ⟨a1, a2, a3, a4, a5, a6, a7, a8, a9, a10⟩ := fillSchemaByNumericKeywords_kw
      (GetTitleOrEmpty fo) (deps.GetDescription f fo) (GetTitleOrEmpty fo)
      (deps.GetDescription g fo) (FieldOptions.GetNumeric fo)
    exact key _ _ (scalaElement_numeric deps f fo hk)
      (scalaElement_numeric deps g fo (hsame ▸ hk))
      ⟨a1.trans a2.symm, a3.trans a4.symm, a5, a6, a7, a8, a9, a10⟩
  · exact key _ _ (scalaElement_bool deps f fo hk)
      (scalaElement_bool deps g fo (hsame.trans hk))
      ⟨rfl, rfl, rfl, rfl, rfl, rfl, rfl, rfl⟩
  · obtain ⟨a1, a2, a3, a4, a5, a6, a7, a8, a9, a10⟩ := fillSchemaByStringKeywords_kw
      (GetTitleOrEmpty fo) (deps.GetDescription f fo) (GetTitleOrEmpty fo)
      (deps.GetDescription g fo) (FieldOptions.GetString_ fo)
    exact key _ _ (scalaElement_string deps f fo (Or.inl hk))
      (scalaElement_string deps g fo (Or.inl (hsame.trans hk)))
      ⟨a1.trans a2.symm, a3.trans a4.symm, a5, a6, a7, a8, a9, a10⟩
  · obtain ⟨a1, a2, a3, a4, a5, a6, a7, a8, a9, a10⟩ := fillSchemaByStringKeywords_kw
      (GetTitleOrEmpty fo) (deps.GetDescription f fo) (GetTitleOrEmpty fo)
      (deps.GetDescription g fo) (FieldOptions.GetString_ fo)
    exact key _ _ (scalaElement_string deps f fo (Or.inr hk))
      (scalaElement_string deps g fo (Or.inr (hsame.trans hk)))
      ⟨a1.trans a2.symm, a3.trans a4.symm, a5, a6, a7, a8, a9, a10⟩
  · obtain ⟨el, e, hel, hen⟩ := henum hk
    have hg : g.type.enum = some e := by
      rw [hsameEnum hk, hel]
      exact hen
    exact key _ _ (scalaElement_enum_repeated deps f fo hk hrep el hel e hen)
      (scalaElement_enum_singular deps g fo (hsame.trans hk) hsingular e hg)
      ⟨rfl, rfl, rfl, rfl, rfl, rfl, rfl, rfl⟩

/-- The theorem `buildFromScalaField_repeated_items` at the repeated string field `tags` and
the singular string field `tag`: an array whose `items` has the type of the singular
fragment, "string". -/
theorem buildFromScalaField_repeated_items_witness :
    ∃ r inner single,
      buildFromScalaField sampleDeps tagsField (some tagsOptions) = some r
      ∧ r.type = "array" ∧ r.items = some inner
      ∧ buildFromScalaField sampleDeps tagField (some tagsOptions) = some single
      ∧ inner.type = single.type ∧ single.type = "string" :=
  match buildFromScalaField_repeated_items sampleDeps tagsField tagField (some tagsOptions)
      rfl (Or.inr (Or.inr (Or.inl rfl))) (fun h => by cases h) rfl rfl
      (fun h => by cases h) with
  | ⟨r, inner, single, hr, htype, _, _, _, hitems, hsingle, hsame, _⟩ =>
    ⟨r, inner, single, hr, htype, hitems, hsingle, hsame, by
      have h := hsingle
      rw [show buildFromScalaField sampleDeps tagField (some tagsOptions) =
        some (fillSchemaByStringKeywords
          (((Schema.empty.setTitle "Tags").setDescription "labels").setType "string") none)
        from rfl] at h
      cases Option.some.inj h
      rfl⟩

/-! ## Singular scalar fields -/

/-- Claim C7: For a singular field the fragment of `buildFromScalaField` is decided by the
scalar kind: `type` = "number" and no `ref` for every numeric kind, `type` = "boolean" and
no `ref` for bool, `type` = "string" and no `ref` for string and for bytes, and for enum no
`type` and `ref` = `toDef` of the enum of the field. -/
theorem buildFromScalaField_kind (deps : Deps) (f : Field) (fo : Option FieldOptions)
    (hrep : f.type.isRepeated = false) :
    (f.type.protoType.IsNumeric = true →
        ∃ r, buildFromScalaField deps f fo = some r ∧ r.type = "number" ∧ r.ref = "")
      ∧ (f.type.protoType = ProtoType.BoolT →
        ∃ r, buildFromScalaField deps f fo = some r ∧ r.type = "boolean" ∧ r.ref = "")
      ∧ (f.type.protoType = ProtoType.StringT ∨ f.type.protoType = ProtoType.BytesT →
        ∃ r, buildFromScalaField deps f fo = some r ∧ r.type = "string" ∧ r.ref = "")
      ∧ (f.type.protoType = ProtoType.EnumT → ∀ e, f.type.enum = some e →
        ∃ r, buildFromScalaField deps f fo = some r ∧ r.type = "" ∧ r.ref = toDef e) := by
  rw [buildFromScalaField_singular deps f fo hrep]
  refine ⟨fun hk => ?_, fun hk => ?_, fun hk => ?_, fun hk e he => ?_⟩
  · obtain ⟨a1, _, a3, _⟩ := fillSchemaByNumericKeywords_kw
      (GetTitleOrEmpty fo) (deps.GetDescription f fo) (GetTitleOrEmpty fo)
      (deps.GetDescription f fo) (FieldOptions.GetNumeric fo)
    exact ⟨_, scalaElement_numeric deps f fo hk, a1, a3⟩
  · exact ⟨_, scalaElement_bool deps f fo hk, rfl, rfl⟩
  · obtain ⟨a1, _, a3, _⟩ := fillSchemaByStringKeywords_kw
      (GetTitleOrEmpty fo) (deps.GetDescription f fo) (GetTitleOrEmpty fo)
      (deps.GetDescription f fo) (FieldOptions.GetString_ fo)
    exact ⟨_, scalaElement_string deps f fo hk, a1, a3⟩
  · exact ⟨_, scalaElement_enum_singular deps f fo hk hrep e he, rfl, rfl⟩

/-- The theorem `buildFromScalaField_kind` at the singular `int32` field `count`: its
fragment has the type "number". -/
theorem buildFromScalaField_kind_witness :
    ∃ r, buildFromScalaField sampleDeps (int32Field "count" false false) none = some r
      ∧ r.type = "number" ∧ r.ref = "" :=
  (buildFromScalaField_kind sampleDeps (int32Field "count" false false) none rfl).1 rfl

/-! ## Reference strings -/

/-- Appending to the same string is injective. -/
theorem String.append_left_injective (p a b : String) (h : p ++ a = p ++ b) : a = b := by
  have hdata := congrArg String.data h
  simp only [String.data_append] at hdata
  exact String.ext (List.append_cancel_left hdata)

/-- Two reference strings are equal exactly when the fully-qualified names are. -/
theorem toDef_eq_iff {α β : Type} [FqdnResolver α] [FqdnResolver β] (a : α) (b : β) :
    toDef a = toDef b ↔
      FqdnResolver.FullyQualifiedName a = FqdnResolver.FullyQualifiedName b := by
  constructor
  · intro h
    exact String.append_left_injective _ _ _ h
  · intro h
    unfold toDef
    rw [h]

/-! ## Message fields -/

/-- The fragment of `buildFromMessageField` and the reference it emits, for a field whose
element type is the message `m`. -/
theorem buildFromMessageField_emittedRef (deps : Deps) (f : Field) (fo : Option FieldOptions)
    (m : EmbedMessage) (hm : f.type.elementMessage = some m) :
    ∃ r, buildFromMessageField deps f fo = some r ∧ r.emittedRef = toDef m := by
  unfold FieldType.elementMessage at hm
  cases hrep : f.type.isRepeated with
  | false =>
    simp only [hrep] at hm
    refine ⟨((Schema.empty.setTitle (GetTitleOrEmpty fo)).setDescription
      (deps.GetDescription f fo)).setRef (toDef m), ?_, rfl⟩
    rw [buildFromMessageField_singular deps f fo hrep]
    unfold buildFromMessageField.element
    simp at hm
    simp [hrep, hm]
  | true =>
    simp only [hrep, if_true] at hm
    cases hel : f.type.element with
    | none => simp [hel] at hm
    | some el =>
      simp only [hel, Option.some_bind] at hm
      refine ⟨wrapSchemaInArray (((Schema.empty.setTitle (GetTitleOrEmpty fo)).setDescription
        (deps.GetDescription f fo)).setRef (toDef m)) f fo, ?_, ?_⟩
      · rw [buildFromMessageField_repeated deps f fo hrep]
        unfold buildFromMessageField.element
        simp [hrep, hel, hm]
      · unfold Schema.emittedRef
        rw [(wrapSchemaInArray_eq _ f fo).2.2.2.2]
        rfl

/-- Claim C8: For a field whose element type is a message, `buildFromMessageField` emits a
reference to the element type: for a singular field the fragment has `ref` = `toDef` of the
message of its type, no `type`, and title and description from the field options, nothing
else; for a repeated field the fragment is an array whose `items` has `ref` = `toDef` of the
message of the element. So two fields, of the same or of different messages, repeated or
not, emit the same reference string exactly when their element messages have the same
fully-qualified name. -/
theorem buildFromMessageField_ref :
    (∀ (deps : Deps) (f : Field) (fo : Option FieldOptions) (m : EmbedMessage),
        f.type.isRepeated = false → f.type.embed = some m →
        buildFromMessageField deps f fo =
          some (Schema.mk { title := GetTitleOrEmpty fo,
                            description := deps.GetDescription f fo,
                            ref := toDef m } [] none none [] none [] none))
      ∧ (∀ (deps : Deps) (f : Field) (fo : Option FieldOptions) (el : FieldTypeElem)
          (m : EmbedMessage),
        f.type.isRepeated = true → f.type.element = some el → el.embed = some m →
        ∃ r inner, buildFromMessageField deps f fo = some r
          ∧ r.type = "array" ∧ r.items = some inner
          ∧ inner.ref = toDef m ∧ inner.type = "")
      ∧ (∀ (deps₁ deps₂ : Deps) (f₁ f₂ : Field) (fo₁ fo₂ : Option FieldOptions)
          (m₁ m₂ : EmbedMessage),
        f₁.type.elementMessage = some m₁ → f₂.type.elementMessage = some m₂ →
        ∃ r₁ r₂, buildFromMessageField deps₁ f₁ fo₁ = some r₁
          ∧ buildFromMessageField deps₂ f₂ fo₂ = some r₂
          ∧ (r₁.emittedRef = r₂.emittedRef ↔
              m₁.fullyQualifiedName = m₂.fullyQualifiedName)) := by
  refine ⟨?_, ?_, ?_⟩
  · intro deps f fo m hrep hm
    rw [buildFromMessageField_singular deps f fo hrep]
    unfold buildFromMessageField.element
    simp only [hrep, hm]
    rfl
  · intro deps f fo el m hrep hel hm
    refine ⟨wrapSchemaInArray (((Schema.empty.setTitle (GetTitleOrEmpty fo)).setDescription
      (deps.GetDescription f fo)).setRef (toDef m)) f fo, _, ?_,
      (wrapSchemaInArray_eq _ f fo).1, (wrapSchemaInArray_eq _ f fo).2.2.2.2, rfl, rfl⟩
    rw [buildFromMessageField_repeated deps f fo hrep]
    unfold buildFromMessageField.element
    simp [hrep, hel, hm]
  · intro deps₁ deps₂ f₁ f₂ fo₁ fo₂ m₁ m₂ h₁ h₂
    obtain ⟨r₁, hr₁, he₁⟩ := buildFromMessageField_emittedRef deps₁ f₁ fo₁ m₁ h₁
    obtain ⟨r₂, hr₂, he₂⟩ := buildFromMessageField_emittedRef deps₂ f₂ fo₂ m₂ h₂
    refine ⟨r₁, r₂, hr₁, hr₂, ?_⟩
    rw [he₁, he₂]
    exact toDef_eq_iff m₁ m₂

/-- The theorem `buildFromMessageField_ref` at the singular field `owner` and the repeated
field `members`, of different messages and both of element type `pkg.User`: they emit the
same reference string. -/
theorem buildFromMessageField_ref_witness :
    ∃ r₁ r₂, buildFromMessageField sampleDeps ownerField none = some r₁
      ∧ buildFromMessageField sampleDeps membersField (some tagsOptions) = some r₂
      ∧ r₁.emittedRef = r₂.emittedRef :=
  match buildFromMessageField_ref.2.2 sampleDeps sampleDeps ownerField membersField none
      (some tagsOptions) (EmbedMessage.mk ".pkg.User") (EmbedMessage.mk ".pkg.User")
      rfl rfl with
  | ⟨r₁, r₂, h₁, h₂, hiff⟩ => ⟨r₁, r₂, h₁, h₂, hiff.mpr rfl⟩

/-! ## Map fields -/

/-- Claim C9: For a map field, `buildFromMapField` returns a fragment with `type` = "object",
title and description of the field options, no `required`, no `items`, and an
`additionalProperties` fragment decided by the value type of the map: only `ref` = `toDef`
of the value message when the value is a message, only `ref` = `toDef` of the value enum
when it is an enum, only `type` = "number" when it is numeric, "boolean" when bool, "string"
when string or bytes. -/
theorem buildFromMapField_additionalProperties (deps : Deps) (f : Field)
    (fo : Option FieldOptions) (value : FieldTypeElem) (hel : f.type.element = some value) :
    (value.protoType = ProtoType.MessageT → ∀ m, value.embed = some m →
        buildFromMapField deps f fo =
          some (Schema.mk { type := "object", title := GetTitleOrEmpty fo,
                            description := deps.GetDescription f fo } [] none
            (some (Schema.mk { ref := toDef m } [] none none [] none [] none))
            [] none [] none))
      ∧ (value.protoType = ProtoType.EnumT → ∀ e, value.enum = some e →
        buildFromMapField deps f fo =
          some (Schema.mk { type := "object", title := GetTitleOrEmpty fo,
                            description := deps.GetDescription f fo } [] none
            (some (Schema.mk { ref := toDef e } [] none none [] none [] none))
            [] none [] none))
      ∧ (value.protoType.IsNumeric = true →
        buildFromMapField deps f fo =
          some (Schema.mk { type := "object", title := GetTitleOrEmpty fo,
                            description := deps.GetDescription f fo } [] none
            (some (Schema.mk { type := "number" } [] none none [] none [] none))
            [] none [] none))
      ∧ (value.protoType = ProtoType.BoolT →
        buildFromMapField deps f fo =
          some (Schema.mk { type := "object", title := GetTitleOrEmpty fo,
                            description := deps.GetDescription f fo } [] none
            (some (Schema.mk { type := "boolean" } [] none none [] none [] none))
            [] none [] none))
      ∧ (value.protoType = ProtoType.StringT ∨ value.protoType = ProtoType.BytesT →
        buildFromMapField deps f fo =
          some (Schema.mk { type := "object", title := GetTitleOrEmpty fo,
                            description := deps.GetDescription f fo } [] none
            (some (Schema.mk { type := "string" } [] none none [] none [] none))
            [] none [] none)) := by
  refine ⟨fun hk m hm => ?_, fun hk e he => ?_, fun hk => ?_, fun hk => ?_, fun hk => ?_⟩
  · simp [buildFromMapField, hel, hk, hm]
    rfl
  · simp [buildFromMapField, hel, hk, he, ProtoType.IsNumeric]
    rfl
  · have hne : ¬ value.protoType = ProtoType.MessageT := by
      intro h
      rw [h] at hk
      cases hk
    simp [buildFromMapField, hel, hk, hne]
    rfl
  · simp [buildFromMapField, hel, hk, ProtoType.IsNumeric]
    rfl
  · rcases hk with hk | hk
    · simp [buildFromMapField, hel, hk, ProtoType.IsNumeric]
      rfl
    · simp [buildFromMapField, hel, hk, ProtoType.IsNumeric]
      rfl

/-- The theorem `buildFromMapField_additionalProperties` at the map field `byName` whose
values are the message `pkg.User`: the fragment is `type: object` with the
`additionalProperties` fragment that refers to `pkg.User`, nothing else. -/
theorem buildFromMapField_additionalProperties_witness :
    buildFromMapField sampleDeps byNameField none =
      some (Schema.mk { type := "object" } [] none
        (some (Schema.mk { ref := "#/$defs/.pkg.User" } [] none none [] none [] none))
        [] none [] none) :=
  (buildFromMapField_additionalProperties sampleDeps byNameField none userElem rfl).1 rfl
    (EmbedMessage.mk ".pkg.User") rfl

/-! ## Enums -/

@[simp] theorem Schema.enum_setEnum (s : Schema) (v : List GoAny) :
    (s.setEnum v).enum = v := by cases s; rfl
@[simp] theorem Schema.type_setEnum (s : Schema) (v : List GoAny) :
    (s.setEnum v).type = s.type := by cases s; rfl

/-- The loop of `buildFromEnum` in the mode `MapToString`: it ends without error and has
appended the names of the values, in order. -/
theorem enumLoop_string (deps : Deps) (values : List EnumValue) (s : Schema) :
    ∃ r, buildFromEnum.loop deps MappingType.MapToString values s = some (some r, none)
      ∧ r.type = s.type
      ∧ r.enum = s.enum ++ values.map fun v => GoAny.string v.name := by
  induction values generalizing s with
  | nil => exact ⟨s, rfl, rfl, by simp⟩
  | cons v rest ih =>
    obtain ⟨r, hr, ht, he⟩ := ih (s.setEnum (s.enum ++ [GoAny.string v.name]))
    refine ⟨r, ?_, ?_, ?_⟩
    · rw [buildFromEnum.loop]
      exact hr
    · rw [ht, Schema.type_setEnum]
    · rw [he, Schema.enum_setEnum]
      simp

/-- The loop of `buildFromEnum` in the mode `MapToNumber`: it ends without error and has
appended the ordinals of the values, in order. -/
theorem enumLoop_number (deps : Deps) (values : List EnumValue) (s : Schema) :
    ∃ r, buildFromEnum.loop deps MappingType.MapToNumber values s = some (some r, none)
      ∧ r.type = s.type
      ∧ r.enum = s.enum ++ values.map fun v => GoAny.int32 v.value := by
  induction values generalizing s with
  | nil => exact ⟨s, rfl, rfl, by simp⟩
  | cons v rest ih =>
    obtain ⟨r, hr, ht, he⟩ := ih (s.setEnum (s.enum ++ [GoAny.int32 v.value]))
    refine ⟨r, ?_, ?_, ?_⟩
    · rw [buildFromEnum.loop]
      exact hr
    · rw [ht, Schema.type_setEnum]
    · rw [he, Schema.enum_setEnum]
      simp

/-- Claim C10: For an enum with the values `v1..vn` in declaration order: in the mode
`MapToString`, `buildFromEnum` succeeds (a schema and a nil error) with `type` = "string"
and `enum` the list of the names of the values; in the mode `MapToNumber` it succeeds with
`type` = "number" and `enum` the list of the ordinals of the values; in both modes the
`enum` list has exactly `n` entries, in declaration order. -/
theorem buildFromEnum_string_number (deps : Deps) (e : Enum) :
    (e.options.mappingType = MappingType.MapToString →
        ∃ r, buildFromEnum deps e = some (some r, none)
          ∧ r.type = "string"
          ∧ r.enum = e.values.map (fun v => GoAny.string v.name)
          ∧ r.enum.length = e.values.length)
      ∧ (e.options.mappingType = MappingType.MapToNumber →
        ∃ r, buildFromEnum deps e = some (some r, none)
          ∧ r.type = "number"
          ∧ r.enum = e.values.map (fun v => GoAny.int32 v.value)
          ∧ r.enum.length = e.values.length) := by
  constructor
  · intro hmode
    obtain ⟨r, hr, ht, he⟩ := enumLoop_string deps e.values
      (((Schema.empty.setType "string").setTitle e.options.title).setDescription
        (deps.GetDescriptionOfEnum e e.options))
    refine ⟨r, ?_, ht, he, ?_⟩
    · unfold buildFromEnum GetEnumOptions
      simp only [hmode]
      exact hr
    · rw [he]
      simp [Schema.enum, Schema.setDescription, Schema.setTitle, Schema.setType,
        Schema.withKw, Schema.empty, Schema.kw]
  · intro hmode
    obtain ⟨r, hr, ht, he⟩ := enumLoop_number deps e.values
      (((Schema.empty.setType "number").setTitle e.options.title).setDescription
        (deps.GetDescriptionOfEnum e e.options))
    refine ⟨r, ?_, ht, he, ?_⟩
    · unfold buildFromEnum GetEnumOptions
      simp only [hmode]
      exact hr
    · rw [he]
      simp [Schema.enum, Schema.setDescription, Schema.setTitle, Schema.setType,
        Schema.withKw, Schema.empty, Schema.kw]

/-- The theorem `buildFromEnum_string_number` at the enum with the values `A = 0` and
`B = 5`: the names `A`, `B` in the mode `MapToString`, the ordinals `0`, `5` in the mode
`MapToNumber`. -/
theorem buildFromEnum_string_number_witness :
    (∃ r, buildFromEnum sampleDeps (colorEnum MappingType.MapToString) = some (some r, none)
        ∧ r.type = "string" ∧ r.enum = [GoAny.string "A", GoAny.string "B"])
      ∧ (∃ r, buildFromEnum sampleDeps (colorEnum MappingType.MapToNumber) = some (some r, none)
        ∧ r.type = "number" ∧ r.enum = [GoAny.int32 0, GoAny.int32 5]) :=
  ⟨match (buildFromEnum_string_number sampleDeps (colorEnum MappingType.MapToString)).1 rfl with
    | ⟨r, hr, ht, he, _⟩ => ⟨r, hr, ht, he⟩,
   match (buildFromEnum_string_number sampleDeps (colorEnum MappingType.MapToNumber)).2 rfl with
    | ⟨r, hr, ht, he, _⟩ => ⟨r, hr, ht, he⟩⟩

/-! ## The reference namer -/

/-- Claim C14: `toDef` is the fixed prefix `#/$defs/` followed by the fully-qualified name of
the resolver, for message, enum and field resolvers alike (and for any other resolver), so it
depends on the fully-qualified name only and is injective in it: two resolvers, of the same
or of different kinds, get the same reference string iff their fully-qualified names are
equal. -/
theorem toDef_injective :
    (∀ m : Message, toDef m = "#/$defs/" ++ m.fullyQualifiedName)
      ∧ (∀ m : EmbedMessage, toDef m = "#/$defs/" ++ m.fullyQualifiedName)
      ∧ (∀ e : Enum, toDef e = "#/$defs/" ++ e.fullyQualifiedName)
      ∧ (∀ f : Field, toDef f = "#/$defs/" ++ f.fullyQualifiedName)
      ∧ (∀ (α β : Type) [FqdnResolver α] [FqdnResolver β] (r₁ : α) (r₂ : β),
          toDef r₁ = toDef r₂ ↔
            FqdnResolver.FullyQualifiedName r₁ = FqdnResolver.FullyQualifiedName r₂) :=
  ⟨fun _ => rfl, fun _ => rfl, fun _ => rfl, fun _ => rfl,
    fun _ _ _ _ r₁ r₂ => toDef_eq_iff r₁ r₂⟩

/-! ## The `allOf` list of a message -/

/-- Claim C15: For a message whose object-level options add nothing to `allOf`, the `allOf`
list of `buildFromMessage` has exactly one entry per oneof group, in the declaration order of
the groups, and each entry sets `oneOf` only; a group without members gives the entry
`{oneOf: [{not: {anyOf: []}}]}`, a group with the one member `a` gives
`{oneOf: [{required: [a]}, {not: {anyOf: [{required: [a]}]}}]}`, and a message without oneof
group has an empty `allOf`. -/
theorem buildFromMessage_allOf (deps : Deps) (m : Message) (mo : Option MessageOptions)
    (hobj : ∀ s, (deps.fillSchemaByObjectKeywords s (MessageOptions.GetObject mo)).allOf =
      s.allOf) :
    (buildFromMessage deps m mo).allOf = m.oneOfs.map buildFromMessage.oneOfSchema
      ∧ (buildFromMessage deps m mo).allOf.length = m.oneOfs.length
      ∧ (∀ g : OneOf, buildFromMessage.oneOfSchema g =
          Schema.mk {} [] none none [] none (buildFromMessage.oneOfSchema g).oneOf none)
      ∧ (∀ g : OneOf, g.fields = [] →
          buildFromMessage.oneOfSchema g =
            Schema.mk {} [] none none [] none
              [Schema.mk {} [] none none [] none []
                (some (Schema.mk {} [] none none [] (some []) [] none))] none)
      ∧ (∀ (g : OneOf) (a : Field), g.fields = [a] →
          buildFromMessage.oneOfSchema g =
            Schema.mk {} [] none none [] none
              [Schema.mk { required := [toPropertyName a.name] } [] none none [] none [] none,
                Schema.mk {} [] none none [] none []
                  (some (Schema.mk {} [] none none []
                    (some [Schema.mk { required := [toPropertyName a.name] }
                      [] none none [] none [] none]) [] none))] none)
      ∧ (m.oneOfs = [] → (buildFromMessage deps m mo).allOf = []) := by
  have hall : (buildFromMessage deps m mo).allOf = m.oneOfs.map buildFromMessage.oneOfSchema := by
    rw [buildFromMessage_allOf_eq, hobj, header_allOf, List.nil_append]
  refine ⟨hall, ?_, fun _ => rfl, ?_, ?_, ?_⟩
  · rw [hall, List.length_map]
  · intro g hg
    unfold buildFromMessage.oneOfSchema
    rw [hg]
    rfl
  · intro g a hg
    unfold buildFromMessage.oneOfSchema
    rw [hg]
    rfl
  · intro h
    rw [hall, h]
    rfl

/-- The theorem `buildFromMessage_allOf` at the message `countMessage`, which has one oneof
group: `allOf` has one entry. -/
theorem buildFromMessage_allOf_witness :
    (buildFromMessage sampleDeps countMessage none).allOf.length = 1 :=
  (buildFromMessage_allOf sampleDeps countMessage none (fun _ => rfl)).2.1

/-! ## Enums in the modes `MapToString` and `MapToNumber` -/

theorem Schema.setEnum_setEnum (s : Schema) (v w : List GoAny) :
    (s.setEnum v).setEnum w = s.setEnum w := by cases s; rfl

theorem Schema.setEnum_enum (s : Schema) : s.setEnum s.enum = s := by cases s; rfl

/-- The result of the loop of `buildFromEnum` in the mode `MapToString`. -/
theorem enumLoop_string_eq (deps : Deps) (values : List EnumValue) (s : Schema) :
    buildFromEnum.loop deps MappingType.MapToString values s =
      some (some (s.setEnum (s.enum ++ values.map fun v => GoAny.string v.name)), none) := by
  induction values generalizing s with
  | nil => simp [buildFromEnum.loop, Schema.setEnum_enum]
  | cons v rest ih =>
    rw [buildFromEnum.loop, ih, Schema.setEnum_setEnum, Schema.enum_setEnum]
    simp

/-- The result of the loop of `buildFromEnum` in the mode `MapToNumber`. -/
theorem enumLoop_number_eq (deps : Deps) (values : List EnumValue) (s : Schema) :
    buildFromEnum.loop deps MappingType.MapToNumber values s =
      some (some (s.setEnum (s.enum ++ values.map fun v => GoAny.int32 v.value)), none) := by
  induction values generalizing s with
  | nil => simp [buildFromEnum.loop, Schema.setEnum_enum]
  | cons v rest ih =>
    rw [buildFromEnum.loop, ih, Schema.setEnum_setEnum, Schema.enum_setEnum]
    simp

/-- The function `buildFromEnum` in one of the three named modes: the loop, started on the
schema with the type of the mode, the title and the description. -/
theorem buildFromEnum_eq_loop (deps : Deps) (e : Enum) :
    (e.options.mappingType = MappingType.MapToString →
        buildFromEnum deps e = buildFromEnum.loop deps MappingType.MapToString e.values
          (((Schema.empty.setType "string").setTitle e.options.title).setDescription
            (deps.GetDescriptionOfEnum e e.options)))
      ∧ (e.options.mappingType = MappingType.MapToNumber →
        buildFromEnum deps e = buildFromEnum.loop deps MappingType.MapToNumber e.values
          (((Schema.empty.setType "number").setTitle e.options.title).setDescription
            (deps.GetDescriptionOfEnum e e.options)))
      ∧ (e.options.mappingType = MappingType.MapToCustom →
        buildFromEnum deps e = buildFromEnum.loop deps MappingType.MapToCustom e.values
          (((Schema.empty.setType "string").setTitle e.options.title).setDescription
            (deps.GetDescriptionOfEnum e e.options))) := by
  refine ⟨fun h => ?_, fun h => ?_, fun h => ?_⟩ <;>
    simp only [buildFromEnum, GetEnumOptions, GetTitleOrEmptyOfEnum, h]

/-- Claim C17: In the modes `MapToString` and `MapToNumber`, `buildFromEnum` never fails and
never reads a custom payload: whatever custom values the enum values carry (none, valid JSON
or invalid JSON), it returns a schema and a nil error, and the result for the enum with all
custom values removed is the same whenever the description, which `proto.GetDescription`
derives outside this file, is the same for the two enums. -/
theorem buildFromEnum_ignores_custom (deps : Deps) (e : Enum)
    (hmode : e.options.mappingType = MappingType.MapToString
      ∨ e.options.mappingType = MappingType.MapToNumber) :
    (∃ r, buildFromEnum deps e = some (some r, none))
      ∧ (deps.GetDescriptionOfEnum e.withoutCustomValues e.options =
            deps.GetDescriptionOfEnum e e.options →
          buildFromEnum deps e.withoutCustomValues = buildFromEnum deps e) := by
  have hopt : e.withoutCustomValues.options = e.options := rfl
  rcases hmode with hmode | hmode
  · constructor
    · rw [(buildFromEnum_eq_loop deps e).1 hmode]
      exact ⟨_, enumLoop_string_eq deps _ _⟩
    · intro hdesc
      rw [(buildFromEnum_eq_loop deps e).1 hmode,
        (buildFromEnum_eq_loop deps e.withoutCustomValues).1 (hopt ▸ hmode), hopt, hdesc,
        enumLoop_string_eq, enumLoop_string_eq]
      simp [Enum.withoutCustomValues, Function.comp_def]
  · constructor
    · rw [(buildFromEnum_eq_loop deps e).2.1 hmode]
      exact ⟨_, enumLoop_number_eq deps _ _⟩
    · intro hdesc
      rw [(buildFromEnum_eq_loop deps e).2.1 hmode,
        (buildFromEnum_eq_loop deps e.withoutCustomValues).2.1 (hopt ▸ hmode), hopt, hdesc,
        enumLoop_number_eq, enumLoop_number_eq]
      simp [Enum.withoutCustomValues, Function.comp_def]

/-- The theorem `buildFromEnum_ignores_custom` at an enum in the mode `MapToNumber` whose
value `B` carries a payload that is not JSON: the result is the one without custom values. -/
theorem buildFromEnum_ignores_custom_witness :
    buildFromEnum sampleDeps
        { customEnum [customValue "A" ".pkg.Color.A" none,
            customValue "B" ".pkg.Color.B" (some payloadBad)] with
          options := { title := "", description := "", mappingType := MappingType.MapToNumber } }
      = some (some (Schema.mk { type := "number", enum := [GoAny.int32 0, GoAny.int32 0] }
          [] none none [] none [] none), none) :=
  ((buildFromEnum_ignores_custom sampleDeps
      { customEnum [customValue "A" ".pkg.Color.A" none,
          customValue "B" ".pkg.Color.B" (some payloadBad)] with
        options := { title := "", description := "", mappingType := MappingType.MapToNumber } }
      (Or.inr rfl)).2 rfl).symm.trans rfl

/-! ## The scalar classifier -/

/-- A reference string is never empty. -/
theorem toDef_ne_empty {α : Type} [FqdnResolver α] (r : α) : toDef r ≠ "" := by
  intro h
  have hlen := congrArg String.length h
  unfold toDef at hlen
  rw [String.length_append] at hlen
  have h8 : "#/$defs/".length = 8 := by decide
  have h0 : "".length = 0 := by decide
  omega

/-- The first part of `buildFromScalaField` on a kind that no test of the dispatch matches:
title and description only. -/
theorem scalaElement_other (deps : Deps) (f : Field) (fo : Option FieldOptions)
    (h : f.type.protoType = ProtoType.MessageT ∨ f.type.protoType = ProtoType.GroupT) :
    buildFromScalaField.element deps f fo =
      some ((Schema.empty.setTitle (GetTitleOrEmpty fo)).setDescription
        (deps.GetDescription f fo)) := by
  unfold buildFromScalaField.element
  rcases h with h | h <;> simp [h, ProtoType.IsNumeric]

/-- The kinds for which `isScalarType` is true. -/
theorem isScalarType_iff (f : Field) :
    isScalarType f = true ↔
      (f.type.protoType.IsNumeric = true ∨ f.type.protoType = ProtoType.BoolT
        ∨ f.type.protoType = ProtoType.EnumT ∨ f.type.protoType = ProtoType.StringT
        ∨ f.type.protoType = ProtoType.BytesT) := by
  unfold isScalarType
  cases f.type.protoType <;> simp [ProtoType.IsNumeric]

/-- Every kind is numeric, bool, enum, string, bytes, message or group. -/
theorem protoType_cases (p : ProtoType) :
    p.IsNumeric = true ∨ p = ProtoType.BoolT ∨ p = ProtoType.EnumT ∨ p = ProtoType.StringT
      ∨ p = ProtoType.BytesT ∨ p = ProtoType.MessageT ∨ p = ProtoType.GroupT := by
  cases p <;> simp [ProtoType.IsNumeric]

/-- The dispatch of `buildFromScalaField` on a singular field, kind by kind, next to
`isScalarType`. -/
theorem scalaField_dispatch (deps : Deps) (f : Field) (fo : Option FieldOptions)
    (hrep : f.type.isRepeated = false)
    (henum : f.type.protoType = ProtoType.EnumT → ∃ e, f.type.enum = some e) :
    (isScalarType f = true ↔
        (f.type.protoType.IsNumeric = true ∨ f.type.protoType = ProtoType.BoolT
          ∨ f.type.protoType = ProtoType.EnumT ∨ f.type.protoType = ProtoType.StringT
          ∨ f.type.protoType = ProtoType.BytesT))
      ∧ ∃ r, buildFromScalaField deps f fo = some r
        ∧ (isScalarType f = true ↔ (r.type ≠ "" ∨ r.ref ≠ ""))
        ∧ (f.type.protoType = ProtoType.MessageT ∨ f.type.protoType = ProtoType.GroupT →
            isScalarType f = false ∧ r.type = "" ∧ r.ref = "") := by
  refine ⟨isScalarType_iff f, ?_⟩
  rw [buildFromScalaField_singular deps f fo hrep]
  have hyes : ∀ r : Schema, isScalarType f = true → (r.type ≠ "" ∨ r.ref ≠ "") →
      buildFromScalaField.element deps f fo = some r →
      ¬ (f.type.protoType = ProtoType.MessageT ∨ f.type.protoType = ProtoType.GroupT) →
      ∃ r, buildFromScalaField.element deps f fo = some r
        ∧ (isScalarType f = true ↔ (r.type ≠ "" ∨ r.ref ≠ ""))
        ∧ (f.type.protoType = ProtoType.MessageT ∨ f.type.protoType = ProtoType.GroupT →
            isScalarType f = false ∧ r.type = "" ∧ r.ref = "") :=
    fun r hs hr hel hno => ⟨r, hel, ⟨fun _ => hr, fun _ => hs⟩, fun h => absurd h hno⟩
  rcases protoType_cases f.type.protoType with hk | hk | hk | hk | hk | hk | hk
  · obtain ⟨a1, _, _, _⟩ := fillSchemaByNumericKeywords_kw
      (GetTitleOrEmpty fo) (deps.GetDescription f fo) (GetTitleOrEmpty fo)
      (deps.GetDescription f fo) (FieldOptions.GetNumeric fo)
    refine hyes _ ((isScalarType_iff f).mpr (Or.inl hk)) (Or.inl ?_)
      (scalaElement_numeric deps f fo hk) ?_
    · rw [a1]
      decide
    · rintro (h | h) <;> rw [h] at hk <;> cases hk
  · refine hyes _ ((isScalarType_iff f).mpr (Or.inr (Or.inl hk))) (Or.inl ?_)
      (scalaElement_bool deps f fo hk) ?_
    · show "boolean" ≠ ""
      decide
    · rintro (h | h) <;> rw [h] at hk <;> cases hk
  · obtain ⟨e, he⟩ := henum hk
    refine hyes _ ((isScalarType_iff f).mpr (Or.inr (Or.inr (Or.inl hk)))) (Or.inr ?_)
      (scalaElement_enum_singular deps f fo hk hrep e he) ?_
    · exact toDef_ne_empty e
    · rintro (h | h) <;> rw [h] at hk <;> cases hk
  · obtain ⟨a1, _, _, _⟩ := fillSchemaByStringKeywords_kw
      (GetTitleOrEmpty fo) (deps.GetDescription f fo) (GetTitleOrEmpty fo)
      (deps.GetDescription f fo) (FieldOptions.GetString_ fo)
    refine hyes _ ((isScalarType_iff f).mpr (Or.inr (Or.inr (Or.inr (Or.inl hk))))) (Or.inl ?_)
      (scalaElement_string deps f fo (Or.inl hk)) ?_
    · rw [a1]
      decide
    · rintro (h | h) <;> rw [h] at hk <;> cases hk
  · obtain ⟨a1, _, _, _⟩ := fillSchemaByStringKeywords_kw
      (GetTitleOrEmpty fo) (deps.GetDescription f fo) (GetTitleOrEmpty fo)
      (deps.GetDescription f fo) (FieldOptions.GetString_ fo)
    refine hyes _ ((isScalarType_iff f).mpr (Or.inr (Or.inr (Or.inr (Or.inr hk))))) (Or.inl ?_)
      (scalaElement_string deps f fo (Or.inr hk)) ?_
    · rw [a1]
      decide
    · rintro (h | h) <;> rw [h] at hk <;> cases hk
  · have hno : isScalarType f = false := by
      unfold isScalarType
      simp [hk, ProtoType.IsNumeric]
    refine ⟨_, scalaElement_other deps f fo (Or.inl hk), ?_, fun _ => ⟨hno, rfl, rfl⟩⟩
    rw [hno]
    constructor
    · intro h
      cases h
    · rintro (h | h) <;> exact absurd rfl h
  · have hno : isScalarType f = false := by
      unfold isScalarType
      simp [hk, ProtoType.IsNumeric]
    refine ⟨_, scalaElement_other deps f fo (Or.inr hk), ?_, fun _ => ⟨hno, rfl, rfl⟩⟩
    rw [hno]
    constructor
    · intro h
      cases h
    · rintro (h | h) <;> exact absurd rfl h

/-- Claim C18: `isScalarType` agrees with the dispatch of `buildFromScalaField`: for a singular
field (an enum field carrying its enum), `isScalarType` is true iff the kind is numeric, bool,
enum, string or bytes, iff the fragment that `buildFromScalaField` returns sets `type` or
`ref`; for the kinds message and group `isScalarType` is false and the fragment sets neither
`type` nor `ref`. -/
theorem isScalarType_agrees (deps : Deps) (f : Field) (fo : Option FieldOptions)
    (hrep : f.type.isRepeated = false)
    (henum : f.type.protoType = ProtoType.EnumT → ∃ e, f.type.enum = some e) :
    (isScalarType f = true ↔
        (f.type.protoType.IsNumeric = true ∨ f.type.protoType = ProtoType.BoolT
          ∨ f.type.protoType = ProtoType.EnumT ∨ f.type.protoType = ProtoType.StringT
          ∨ f.type.protoType = ProtoType.BytesT))
      ∧ ∃ r, buildFromScalaField deps f fo = some r
        ∧ (isScalarType f = true ↔ (r.type ≠ "" ∨ r.ref ≠ ""))
        ∧ ((r.type ≠ "" ∨ r.ref ≠ "") ↔
            (f.type.protoType.IsNumeric = true ∨ f.type.protoType = ProtoType.BoolT
              ∨ f.type.protoType = ProtoType.EnumT ∨ f.type.protoType = ProtoType.StringT
              ∨ f.type.protoType = ProtoType.BytesT))
        ∧ (f.type.protoType = ProtoType.MessageT ∨ f.type.protoType = ProtoType.GroupT →
            isScalarType f = false ∧ r.type = "" ∧ r.ref = "") := by
  obtain ⟨hiff, r, hr, hsets, hother⟩ := scalaField_dispatch deps f fo hrep henum
  exact ⟨hiff, r, hr, hsets, hsets.symm.trans hiff, hother⟩

/-- The theorem `isScalarType_agrees` at the singular enum field `color`: `isScalarType` is
true and the fragment sets `ref`. -/
theorem isScalarType_agrees_witness :
    isScalarType colorField = true
      ∧ ∃ r, buildFromScalaField sampleDeps colorField none = some r
        ∧ (r.type ≠ "" ∨ r.ref ≠ "") :=
  match isScalarType_agrees sampleDeps colorField none rfl
      (fun _ => ⟨colorEnum MappingType.MapToString, rfl⟩) with
  | ⟨hiff, r, hr, hsets, _, _⟩ =>
    ⟨hiff.mpr (Or.inr (Or.inr (Or.inl rfl))),
      r, hr, hsets.mp (hiff.mpr (Or.inr (Or.inr (Or.inl rfl))))⟩

/-! ## Fragments never set both `ref` and `type` -/

/-- What `refOrTypeDeep` says about a node and about its nested fragments. -/
theorem refOrTypeDeep_iff (s : Schema) :
    s.refOrTypeDeep = true ↔
      (s.type = "" ∨ s.ref = "")
        ∧ (∀ inner, s.items = some inner → inner.refOrTypeDeep = true)
        ∧ (∀ inner, s.additionalProperties = some inner → inner.refOrTypeDeep = true) := by
  obtain ⟨kw, p, items, ap, al, an, o, n⟩ := s
  cases items <;> cases ap <;>
    simp [Schema.refOrTypeDeep, Schema.type, Schema.ref, Schema.kw, Schema.items,
      Schema.additionalProperties, and_assoc]

/-- The array wrapper sets `type` only, so it is as good as the inner fragment. -/
theorem wrapSchemaInArray_refOrTypeDeep (s : Schema) (f : Field) (fo : Option FieldOptions) :
    (wrapSchemaInArray s f fo).refOrTypeDeep = s.refOrTypeDeep := by
  obtain ⟨h1, _, _, h4, h5⟩ := wrapSchemaInArray_eq s f fo
  have hap : (wrapSchemaInArray s f fo).additionalProperties = none := by
    unfold wrapSchemaInArray
    cases FieldOptions.GetArray fo <;> rfl
  cases hs : s.refOrTypeDeep with
  | true =>
    rw [refOrTypeDeep_iff]
    refine ⟨Or.inr h4, ?_, ?_⟩
    · intro inner hinner
      rw [h5] at hinner
      cases hinner
      exact hs
    · intro inner hinner
      rw [hap] at hinner
      cases hinner
  | false =>
    cases hw : (wrapSchemaInArray s f fo).refOrTypeDeep with
    | false => rfl
    | true =>
      have := ((refOrTypeDeep_iff _).mp hw).2.1 s h5
      rw [hs] at this
      cases this

/-- The first part of `buildFromScalaField` never sets both `ref` and `type`. -/
theorem scalaElement_refOrTypeDeep (deps : Deps) (f : Field) (fo : Option FieldOptions)
    (s : Schema) (h : buildFromScalaField.element deps f fo = some s) :
    s.refOrTypeDeep = true := by
  unfold buildFromScalaField.element at h
  simp only [titled_eq] at h
  split_ifs at h
  · cases Option.some.inj h
    cases FieldOptions.GetNumeric fo <;> rfl
  · cases Option.some.inj h
    rfl
  · cases hel : f.type.element with
    | none => simp [hel] at h
    | some el =>
      cases hen : el.enum with
      | none => simp [hel, hen] at h
      | some e =>
        simp [hel, hen] at h
        cases h
        rfl
  · cases hen : f.type.enum with
    | none => simp [hen] at h
    | some e =>
      simp [hen] at h
      cases h
      rfl
  · cases Option.some.inj h
    cases FieldOptions.GetString_ fo <;> rfl
  · cases Option.some.inj h
    rfl

/-- The first part of `buildFromMessageField` never sets both `ref` and `type`. -/
theorem messageElement_refOrTypeDeep (deps : Deps) (f : Field) (fo : Option FieldOptions)
    (s : Schema) (h : buildFromMessageField.element deps f fo = some s) :
    s.refOrTypeDeep = true := by
  unfold buildFromMessageField.element at h
  simp only [titled_eq] at h
  split_ifs at h
  · cases hel : f.type.element with
    | none => simp [hel] at h
    | some el =>
      cases hen : el.embed with
      | none => simp [hel, hen] at h
      | some e =>
        simp [hel, hen] at h
        cases h
        rfl
  · cases hen : f.type.embed with
    | none => simp [hen] at h
    | some e =>
      simp [hen] at h
      cases h
      rfl

/-- The fragment of `buildFromMapField` never sets both `ref` and `type`, nor does its
`additionalProperties`. -/
theorem buildFromMapField_refOrTypeDeep (deps : Deps) (f : Field) (fo : Option FieldOptions)
    (s : Schema) (h : buildFromMapField deps f fo = some s) :
    s.refOrTypeDeep = true := by
  unfold buildFromMapField at h
  simp only [titled_eq] at h
  cases hel : f.type.element with
  | none => simp [hel] at h
  | some value =>
    simp only [hel, Option.bind_eq_bind, Option.some_bind] at h
    split_ifs at h
    · cases hm : value.embed with
      | none => simp [hm] at h
      | some m =>
        simp [hm] at h
        cases h
        rfl
    · simp at h
      cases h
      rfl
    · simp at h
      cases h
      rfl
    · cases he : value.enum with
      | none => simp [he] at h
      | some e =>
        simp [he] at h
        cases h
        rfl
    · simp at h
      cases h
      rfl
    · simp at h
      cases h
      rfl

/-- Claim C16: No fragment node produced by the field builders sets both `ref` and `type`: in
the fragment returned by `buildFromScalaField`, `buildFromMessageField` or
`buildFromMapField`, neither the fragment itself nor its nested `items` and
`additionalProperties` fragments have a non-empty `type` together with a non-empty `ref`;
and for a singular field of kind numeric, bool, string, bytes or enum (an enum field carrying
its enum) the fragment of `buildFromScalaField` sets exactly one of the two. -/
theorem fieldBuilders_ref_or_type (deps : Deps) (f : Field) (fo : Option FieldOptions) :
    (∀ r, (buildFromScalaField deps f fo = some r ∨ buildFromMessageField deps f fo = some r
          ∨ buildFromMapField deps f fo = some r) →
        r.refOrTypeDeep = true
        ∧ ¬ (r.type ≠ "" ∧ r.ref ≠ "")
        ∧ (∀ inner, r.items = some inner → ¬ (inner.type ≠ "" ∧ inner.ref ≠ ""))
        ∧ (∀ inner, r.additionalProperties = some inner →
            ¬ (inner.type ≠ "" ∧ inner.ref ≠ "")))
      ∧ (f.type.isRepeated = false →
          (f.type.protoType.IsNumeric = true ∨ f.type.protoType = ProtoType.BoolT
            ∨ f.type.protoType = ProtoType.EnumT ∨ f.type.protoType = ProtoType.StringT
            ∨ f.type.protoType = ProtoType.BytesT) →
          (f.type.protoType = ProtoType.EnumT → ∃ e, f.type.enum = some e) →
          ∃ r, buildFromScalaField deps f fo = some r
            ∧ ((r.type ≠ "" ∧ r.ref = "") ∨ (r.type = "" ∧ r.ref ≠ ""))) := by
  have hnode : ∀ s : Schema, s.refOrTypeDeep = true → ¬ (s.type ≠ "" ∧ s.ref ≠ "") := by
    intro s hs hboth
    rcases ((refOrTypeDeep_iff s).mp hs).1 with h | h
    · exact hboth.1 h
    · exact hboth.2 h
  have hdeep : ∀ r, (buildFromScalaField deps f fo = some r
      ∨ buildFromMessageField deps f fo = some r
      ∨ buildFromMapField deps f fo = some r) → r.refOrTypeDeep = true := by
    intro r hr
    rcases hr with hr | hr | hr
    · cases hrep : f.type.isRepeated with
      | false =>
        rw [buildFromScalaField_singular deps f fo hrep] at hr
        exact scalaElement_refOrTypeDeep deps f fo r hr
      | true =>
        rw [buildFromScalaField_repeated deps f fo hrep] at hr
        cases hel : buildFromScalaField.element deps f fo with
        | none => rw [hel] at hr; cases hr
        | some s =>
          rw [hel] at hr
          cases Option.some.inj hr
          rw [wrapSchemaInArray_refOrTypeDeep]
          exact scalaElement_refOrTypeDeep deps f fo s hel
    · cases hrep : f.type.isRepeated with
      | false =>
        rw [buildFromMessageField_singular deps f fo hrep] at hr
        exact messageElement_refOrTypeDeep deps f fo r hr
      | true =>
        rw [buildFromMessageField_repeated deps f fo hrep] at hr
        cases hel : buildFromMessageField.element deps f fo with
        | none => rw [hel] at hr; cases hr
        | some s =>
          rw [hel] at hr
          cases Option.some.inj hr
          rw [wrapSchemaInArray_refOrTypeDeep]
          exact messageElement_refOrTypeDeep deps f fo s hel
    · exact buildFromMapField_refOrTypeDeep deps f fo r hr
  constructor
  · intro r hr
    have hd := hdeep r hr
    obtain ⟨_, hitems, hap⟩ := (refOrTypeDeep_iff r).mp hd
    exact ⟨hd, hnode r hd, fun inner hi => hnode inner (hitems inner hi),
      fun inner hi => hnode inner (hap inner hi)⟩
  · intro hrep hkind henum
    obtain ⟨_, r, hr, hsets, _⟩ := scalaField_dispatch deps f fo hrep henum
    refine ⟨r, hr, ?_⟩
    have hno := hnode r (hdeep r (Or.inl hr))
    have hsome := hsets.mp ((isScalarType_iff f).mpr hkind)
    by_cases ht : r.type = ""
    · right
      refine ⟨ht, ?_⟩
      rcases hsome with h | h
      · exact absurd ht h
      · exact h
    · left
      refine ⟨ht, ?_⟩
      by_contra href
      exact hno ⟨ht, href⟩

/-- The theorem `fieldBuilders_ref_or_type` at the repeated field `members` of element type
`pkg.User`: the array sets `type` only, its `items` sets `ref` only. -/
theorem fieldBuilders_ref_or_type_witness :
    ∃ r inner, buildFromMessageField sampleDeps membersField none = some r
      ∧ r.items = some inner
      ∧ ¬ (r.type ≠ "" ∧ r.ref ≠ "") ∧ ¬ (inner.type ≠ "" ∧ inner.ref ≠ "")
      ∧ r.type = "array" ∧ inner.ref = "#/$defs/.pkg.User" :=
  match (fieldBuilders_ref_or_type sampleDeps membersField none).1
      (wrapSchemaInArray ((Schema.empty.setDescription "").setRef "#/$defs/.pkg.User")
        membersField none) (Or.inr (Or.inl rfl)) with
  | ⟨_, hnode, hitems, _⟩ =>
    ⟨_, (Schema.empty.setDescription "").setRef "#/$defs/.pkg.User", rfl, rfl, hnode,
      hitems _ rfl, rfl, rfl⟩

/-! ## Enums in the mode `MapToCustom` -/

/-- One iteration of the loop of `buildFromEnum` in the mode `MapToCustom`, by the custom value
of the enum value: a panic when none is attached, the name when it has no bytes, the error of
the decoder when the bytes are rejected, and else the decoded value, or the name when the
decoded value is nil. -/
theorem enumLoop_custom_step (deps : Deps) (v : EnumValue) (rest : List EnumValue)
    (s : Schema) :
    buildFromEnum.loop deps MappingType.MapToCustom (v :: rest) s =
      match v.options.customValue with
      | none => none
      | some a =>
        match a.value with
        | none =>
          buildFromEnum.loop deps MappingType.MapToCustom rest
            (s.setEnum (s.enum ++ [GoAny.string v.name]))
        | some bytes =>
          match deps.Unmarshal bytes with
          | .error err => some (none, some err)
          | .ok decoded =>
            buildFromEnum.loop deps MappingType.MapToCustom rest
              (s.setEnum (s.enum ++ [if decoded.isNil then GoAny.string v.name else decoded])) := by
  rw [buildFromEnum.loop]
  simp only [GetEnumValueOptions, parseScalaValueFromAny]
  cases v.options.customValue with
  | none => rfl
  | some a =>
    obtain ⟨url, value⟩ := a
    cases value with
    | none => simp [GoAny.isNil]
    | some bytes =>
      simp only []
      cases hu : deps.Unmarshal bytes with
      | error err => rfl
      | ok decoded =>
        cases hnil : decoded.isNil <;> simp [hnil]

/-- One iteration on an enum value whose custom value is attached and whose payload is absent
or valid JSON: the loop goes on with the literal of the value appended. -/
theorem enumLoop_custom_step_ok (deps : Deps) (v : EnumValue) (rest : List EnumValue)
    (s : Schema) (hv : v.CustomValueOk deps) :
    buildFromEnum.loop deps MappingType.MapToCustom (v :: rest) s =
      buildFromEnum.loop deps MappingType.MapToCustom rest
        (s.setEnum (s.enum ++ [customLiteral deps v])) := by
  obtain ⟨a, ha, hvalid⟩ := hv
  rw [enumLoop_custom_step]
  unfold customLiteral
  simp only [ha]
  cases hbytes : a.value with
  | none => rfl
  | some bytes =>
    obtain ⟨decoded, hd⟩ := hvalid bytes hbytes
    simp only [hd]

/-- The result of the loop of `buildFromEnum` in the mode `MapToCustom` when every custom value
is attached and every payload is absent or valid JSON. -/
theorem enumLoop_custom_eq (deps : Deps) (values : List EnumValue) (s : Schema)
    (hok : ∀ v ∈ values, v.CustomValueOk deps) :
    buildFromEnum.loop deps MappingType.MapToCustom values s =
      some (some (s.setEnum (s.enum ++ values.map (customLiteral deps))), none) := by
  induction values generalizing s with
  | nil => simp [buildFromEnum.loop, Schema.setEnum_enum]
  | cons v rest ih =>
    rw [enumLoop_custom_step_ok deps v rest s (hok v (List.mem_cons_self _ _)),
      ih _ (fun u hu => hok u (List.mem_cons_of_mem _ hu)), Schema.setEnum_setEnum,
      Schema.enum_setEnum]
    simp

/-- The loop stops with the error of the first payload that is not valid JSON, and returns no
schema, when a custom value is attached to every enum value before it. -/
theorem enumLoop_custom_first_error (deps : Deps) (pre : List EnumValue) (v : EnumValue)
    (post : List EnumValue) (s : Schema) (err : GoError)
    (hpre : ∀ u ∈ pre, u.CustomValueOk deps) (hv : v.FailsWith deps err) :
    buildFromEnum.loop deps MappingType.MapToCustom (pre ++ v :: post) s =
      some (none, some err) := by
  induction pre generalizing s with
  | nil =>
    obtain ⟨a, bytes, ha, hb, hu⟩ := hv
    rw [List.nil_append, enumLoop_custom_step]
    simp only [ha, hb, hu]
  | cons u pre ih =>
    rw [List.cons_append, enumLoop_custom_step_ok deps u _ s (hpre u (List.mem_cons_self _ _))]
    exact ih _ (fun w hw => hpre w (List.mem_cons_of_mem _ hw))

/-- Whenever the loop returns an error, it returns no schema, the error is the one the decoder
raised on the payload of one of the enum values, and the loop returns the same on every list
of enum values that carry the same options, whatever their names are. -/
theorem enumLoop_custom_error (deps : Deps) (values : List EnumValue) (s : Schema)
    (x : Option Schema) (err : GoError)
    (h : buildFromEnum.loop deps MappingType.MapToCustom values s = some (x, some err)) :
    x = none ∧ (∃ v ∈ values, v.FailsWith deps err)
      ∧ ∀ (values' : List EnumValue) (s' : Schema),
          values'.map EnumValue.options = values.map EnumValue.options →
          buildFromEnum.loop deps MappingType.MapToCustom values' s' =
            some (none, some err) := by
  induction values generalizing s with
  | nil =>
    rw [buildFromEnum.loop] at h
    cases h
  | cons v rest ih =>
    rw [enumLoop_custom_step] at h
    have hcons : ∀ (values' : List EnumValue),
        values'.map EnumValue.options = (v :: rest).map EnumValue.options →
        ∃ v' rest', values' = v' :: rest' ∧ v'.options = v.options
          ∧ rest'.map EnumValue.options = rest.map EnumValue.options := by
      intro values' hmap
      cases values' with
      | nil => cases hmap
      | cons v' rest' =>
        simp only [List.map_cons, List.cons.injEq] at hmap
        exact ⟨v', rest', rfl, hmap.1, hmap.2⟩
    cases ha : v.options.customValue with
    | none => simp [ha] at h
    | some a =>
      simp only [ha] at h
      cases hb : a.value with
      | none =>
        simp only [hb] at h
        obtain ⟨hx, ⟨w, hw, hfail⟩, hsame⟩ := ih _ h
        refine ⟨hx, ⟨w, List.mem_cons_of_mem _ hw, hfail⟩, ?_⟩
        intro values' s' hmap
        obtain ⟨v', rest', rfl, hv', hrest'⟩ := hcons values' hmap
        rw [enumLoop_custom_step, hv', ha]
        simp only [hb]
        exact hsame rest' _ hrest'
      | some bytes =>
        simp only [hb] at h
        cases hu : deps.Unmarshal bytes with
        | error e0 =>
          simp only [hu] at h
          cases h
          refine ⟨rfl, ⟨v, List.mem_cons_self _ _, a, bytes, ha, hb, hu⟩, ?_⟩
          intro values' s' hmap
          obtain ⟨v', rest', rfl, hv', _⟩ := hcons values' hmap
          rw [enumLoop_custom_step, hv', ha]
          simp only [hb, hu]
        | ok decoded =>
          simp only [hu] at h
          obtain ⟨hx, ⟨w, hw, hfail⟩, hsame⟩ := ih _ h
          refine ⟨hx, ⟨w, List.mem_cons_of_mem _ hw, hfail⟩, ?_⟩
          intro values' s' hmap
          obtain ⟨v', rest', rfl, hv', hrest'⟩ := hcons values' hmap
          rw [enumLoop_custom_step, hv', ha]
          simp only [hb, hu]
          exact hsame rest' _ hrest'

/-- Claim C11, counterexample: In the mode `MapToCustom`, an enum whose value `A` has no
custom value attached at all and whose value `B` carries the JSON string `"b"` makes
`buildFromEnum` panic, as `parseScalaValueFromAny` reads `Value` through the nil pointer, so
no list `["A", "b"]` is returned; and for an enum whose value `A` carries the valid payload
`null`, the entry is the name `A`, not the decoded value, which is the nil interface. -/
theorem buildFromEnum_custom_counterexample :
    buildFromEnum sampleDeps
        (customEnum [colorValue "A" 0, customValue "B" ".pkg.Color.B" (some payloadB)]) = none
      ∧ sampleDeps.Unmarshal payloadNull = .ok GoAny.nil
      ∧ (∃ r, buildFromEnum sampleDeps
            (customEnum [customValue "A" ".pkg.Color.A" (some payloadNull)]) =
              some (some r, none)
          ∧ r.enum = [GoAny.string "A"])
      ∧ GoAny.string "A" ≠ GoAny.nil :=
  ⟨rfl, rfl, ⟨_, rfl, rfl⟩, fun h => GoAny.noConfusion h⟩

/-- Claim C11, amended: For an enum in the mode `MapToCustom` in which a custom value is
attached to every enum value and every payload that is present is valid JSON, `buildFromEnum`
completes successfully with `type` = "string" and an `enum` list with one entry per enum
value, in declaration order; the entry of a value is the value decoded from its payload when
the payload is present and decodes to a value other than JSON null, and the declared name of
the value when the custom value has no bytes or the payload decodes to null. -/
theorem buildFromEnum_custom (deps : Deps) (e : Enum)
    (hmode : e.options.mappingType = MappingType.MapToCustom)
    (hok : ∀ v ∈ e.values, v.CustomValueOk deps) :
    ∃ r, buildFromEnum deps e = some (some r, none)
      ∧ r.type = "string"
      ∧ r.enum.length = e.values.length
      ∧ r.enum = e.values.map (customLiteral deps)
      ∧ (∀ v ∈ e.values,
          (∀ a, v.options.customValue = some a → a.value = none →
            customLiteral deps v = GoAny.string v.name)
          ∧ (∀ decoded, v.DecodesTo deps decoded →
            customLiteral deps v =
              if decoded.isNil then GoAny.string v.name else decoded)) := by
  refine ⟨((((Schema.empty.setType "string").setTitle e.options.title).setDescription
    (deps.GetDescriptionOfEnum e e.options)).setEnum
      ((((Schema.empty.setType "string").setTitle e.options.title).setDescription
        (deps.GetDescriptionOfEnum e e.options)).enum ++ e.values.map (customLiteral deps))),
    ?_, ?_, ?_, ?_, ?_⟩
  · rw [(buildFromEnum_eq_loop deps e).2.2 hmode]
    exact enumLoop_custom_eq deps e.values _ hok
  · rw [Schema.type_setEnum]
    rfl
  · rw [Schema.enum_setEnum]
    simp [Schema.enum, Schema.setDescription, Schema.setTitle, Schema.setType,
      Schema.withKw, Schema.empty, Schema.kw]
  · rw [Schema.enum_setEnum]
    simp [Schema.enum, Schema.setDescription, Schema.setTitle, Schema.setType,
      Schema.withKw, Schema.empty, Schema.kw]
  · intro v _
    constructor
    · intro a ha hnone
      unfold customLiteral
      simp only [ha, hnone]
    · rintro decoded ⟨a, bytes, ha, hb, hu⟩
      unfold customLiteral
      simp only [ha, hb, hu]

/-- The theorem `buildFromEnum_custom` at the enum whose value `A` has a custom value without
bytes and whose value `B` carries the JSON string `"b"`: the list is the name `A` and the
decoded string `b`. -/
theorem buildFromEnum_custom_witness :
    ∃ r, buildFromEnum sampleDeps
        (customEnum [customValue "A" ".pkg.Color.A" none,
          customValue "B" ".pkg.Color.B" (some payloadB)]) = some (some r, none)
      ∧ r.type = "string" ∧ r.enum = [GoAny.string "A", GoAny.string "b"] :=
  match buildFromEnum_custom sampleDeps
      (customEnum [customValue "A" ".pkg.Color.A" none,
        customValue "B" ".pkg.Color.B" (some payloadB)]) rfl
      (fun v hv => by
        rcases List.mem_cons.mp hv with h | h
        · rw [h]
          exact ⟨_, rfl, fun bytes hb => by cases hb⟩
        · rw [List.mem_singleton.mp h]
          exact ⟨_, rfl, fun bytes hb => by
            cases hb
            exact ⟨GoAny.string "b", rfl⟩⟩) with
  | ⟨r, hr, htype, _, henum, _⟩ => ⟨r, hr, htype, henum.trans rfl⟩

/-- Claim C12, the code at the failing input: in the mode `MapToCustom`, the enum whose value
`A` has no custom value attached and whose value `B` carries a payload that is not valid
JSON makes `buildFromEnum` panic on `A`, so no error is returned; with a custom value without
bytes attached to `A` the same enum returns the error of decoding `B` and a nil schema. -/
theorem buildFromEnum_panics_before_error :
    (customValue "B" ".pkg.Color.B" (some payloadBad)).FailsWith sampleDeps
        { msg := "invalid character looking for beginning of value" }
      ∧ buildFromEnum sampleDeps
          (customEnum [colorValue "A" 0, customValue "B" ".pkg.Color.B" (some payloadBad)]) =
            none
      ∧ buildFromEnum sampleDeps
          (customEnum [customValue "A" ".pkg.Color.A" none,
            customValue "B" ".pkg.Color.B" (some payloadBad)]) =
            some (none, some { msg := "invalid character looking for beginning of value" }) :=
  ⟨⟨_, _, rfl, rfl, rfl⟩, rfl, rfl⟩

/-- Claim C13, counterexample: Two enums in the mode `MapToCustom` that differ only in the
qualified name of the value holding the same payload, which is not valid JSON: `buildFromEnum`
returns the same error for both, the one of the decoder, which names no enum value. -/
theorem buildFromEnum_error_counterexample :
    ".pkg.Color.B" ≠ ".pkg.Shade.B"
      ∧ buildFromEnum sampleDeps
          (customEnum [customValue "B" ".pkg.Color.B" (some payloadBad)]) =
            some (none, some { msg := "invalid character looking for beginning of value" })
      ∧ buildFromEnum sampleDeps
          (customEnum [customValue "B" ".pkg.Shade.B" (some payloadBad)]) =
            some (none, some { msg := "invalid character looking for beginning of value" }) :=
  ⟨by decide, rfl, rfl⟩

/-- Claim C13, amended: Whenever `buildFromEnum` fails in the mode `MapToCustom`, it returns no
schema and the error it returns is the error that `json.Unmarshal` raised on the payload of
one of the enum values, unchanged; the error depends on the payloads only: for an enum in the
same mode whose values carry the same custom values, whatever the names and qualified names
of the enum and of its values are, the returned error is the same. -/
theorem buildFromEnum_error_is_decoder_error (deps : Deps) (e : Enum) (x : Option Schema)
    (err : GoError)
    (hmode : e.options.mappingType = MappingType.MapToCustom)
    (h : buildFromEnum deps e = some (x, some err)) :
    x = none
      ∧ (∃ v ∈ e.values, v.FailsWith deps err)
      ∧ ∀ e' : Enum, e'.options.mappingType = MappingType.MapToCustom →
          e'.values.map EnumValue.options = e.values.map EnumValue.options →
          buildFromEnum deps e' = some (none, some err) := by
  rw [(buildFromEnum_eq_loop deps e).2.2 hmode] at h
  obtain ⟨hx, hfail, hsame⟩ := enumLoop_custom_error deps e.values _ x err h
  refine ⟨hx, hfail, ?_⟩
  intro e' hmode' hvalues
  rw [(buildFromEnum_eq_loop deps e').2.2 hmode']
  exact hsame e'.values _ hvalues

/-- The theorem `buildFromEnum_error_is_decoder_error` at the enum whose value `pkg.Color.B`
carries a payload that is not valid JSON: the enum with the value renamed to `pkg.Shade.B`
returns the same error. -/
theorem buildFromEnum_error_is_decoder_error_witness :
    buildFromEnum sampleDeps (customEnum [customValue "B" ".pkg.Shade.B" (some payloadBad)]) =
      some (none, some { msg := "invalid character looking for beginning of value" }) :=
  (buildFromEnum_error_is_decoder_error sampleDeps
      (customEnum [customValue "B" ".pkg.Color.B" (some payloadBad)]) none
      { msg := "invalid character looking for beginning of value" } rfl rfl).2.2
    (customEnum [customValue "B" ".pkg.Shade.B" (some payloadBad)]) rfl rfl

end Modules
